import Mathlib

/-
Verification of the youtube-comment-analyzer incremental merge-and-checkpoint
pipeline.  The Python sources embedded here are:
  src/src/data_utils.py   (load_app_data, save_app_data, update_data_from_source)
  src/src/schemas.py      (StoredComment, StoredVideoMetadata, StoredVideoData,
                           StoredChannelMetadata, ChannelData)
  src/src/aggregation.py  (calculate_video_aggregates, calculate_channel_aggregates)
  src/main.py             (run_batch_analysis_on_comments,
                           process_comment_list_with_checkpoints, candidate selection)

Modelling conventions:
  - Python dicts (which preserve insertion order and have unique keys) are
    embedded as association lists `List (key, value)`; `alookup` is dict
    access, `setKey` is `d[k] = v` (replace in place if present, append if
    new), `adjust` is in-place mutation of one value.
  - Python floats are embedded as rationals.
  - `datetime` values (all normalised to UTC by the pydantic validators) are
    embedded as an abstract integer instant.
  - Python strings are embedded as Lean strings; the slice `s[:n]` is
    `pyTake s n` (first n code points).
  - In-place mutation of shared objects (comment objects owned by the
    canonical store) is embedded as explicit store updates at the comment's
    (video id, comment id) address.
-/

namespace YCA

/-- UTC instants (every datetime in the store is UTC-normalised by the
pydantic validators, so an instant is all that remains). -/
abbrev DateTime := Int

/-- Python `s[:n]`: the first `n` code points of `s`. -/
def pyTake (s : String) (n : Nat) : String :=
  String.mk (s.toList.take n)

/-- Dict lookup `d.get(k)` / `k in d` on an insertion-ordered association
list: returns the value at the first matching key. -/
def alookup {κ V : Type} [DecidableEq κ] (k : κ) : List (κ × V) → Option V
  | [] => none
  | p :: rest => if p.1 = k then some p.2 else alookup k rest

/-- Dict assignment `d[k] = v`: replaces the value in place if the key is
present (Python dicts keep the original insertion position), else appends. -/
def setKey {κ V : Type} [DecidableEq κ] (k : κ) (v : V) : List (κ × V) → List (κ × V)
  | [] => [(k, v)]
  | p :: rest => if p.1 = k then (k, v) :: rest else p :: setKey k v rest

/-- In-place mutation of the value stored at key `k` (no-op if absent). -/
def adjust {κ V : Type} [DecidableEq κ] (k : κ) (f : V → V) : List (κ × V) → List (κ × V)
  | [] => []
  | p :: rest => if p.1 = k then (p.1, f p.2) :: rest else p :: adjust k f rest

/-- Python `enumerate`, starting at `n`. -/
def enumFrom {α : Type} (n : Nat) : List α → List (Nat × α)
  | [] => []
  | x :: xs => (n, x) :: enumFrom (n + 1) xs

/-- Modelled from the spec (section 3, AnalysisResult "irony verdict: a single
label + its score"): the `IronyResult` pydantic model is imported by main.py
from src.schemas but is missing from the schemas file under src/. -/
structure IronyResult where
  label : Option String
  score : Option ℚ
deriving DecidableEq

/-- Modelled from the spec (section 3, AnalysisResult): the `AnalysisResult`
pydantic model is imported by main.py from src.schemas but missing from the
schemas file under src/.  Field names follow the constructor call in
main.py (run_batch_analysis_on_comments, step 4). -/
structure AnalysisResult where
  persian_sentiment : Option (List (String × ℚ))
  english_translation : Option String
  english_emotions : Option (List (String × ℚ))
  english_irony : Option IronyResult
  analyzed_at : DateTime
deriving DecidableEq

/-- Modelled from the spec (section 3, AggregateAnalysis): the
`AggregateAnalysis` pydantic model is used by src/src/aggregation.py but
missing from the schemas file under src/.  Field names follow the
constructor calls in aggregation.py. -/
structure AggregateAnalysis where
  total_analyzed_comments : Nat
  avg_persian_sentiment : Option (List (String × ℚ))
  avg_english_emotions : Option (List (String × ℚ))
  irony_distribution : Option (List (String × ℚ))
  last_calculated_at : DateTime
deriving DecidableEq

/-- src/src/schemas.py StoredChannelMetadata (plus `aggregate_analysis`,
modelled from the spec: main.py reads/writes
`channel_metadata.aggregate_analysis`, absent from the schemas file under
src/).  `filename_stem` is declared with `exclude=True` in the source. -/
structure StoredChannelMetadata where
  retrieved_at : DateTime
  filename_stem : Option String
  channel_id : String
  title : Option String
  sanitized_title : Option String
  description : Option String
  custom_url : Option String
  published_at : Option DateTime
  country : Option String
  view_count : Option Int
  subscriber_count : Option Int
  video_count : Option Int
  uploads_playlist_id : Option String
  last_metadata_update_timestamp : Option DateTime
  channel_sensuality : Option ℚ
  avg_emojis_per_comment : Option ℚ
  avg_chars_per_comment : Option ℚ
  last_sensuality_calculation_timestamp : Option DateTime
  aggregate_analysis : Option AggregateAnalysis
deriving DecidableEq

/-- src/src/schemas.py StoredComment (plus `analysis`, modelled from the
spec: "optional attached AnalysisResult", read and written by main.py but
absent from the schemas file under src/). -/
structure StoredComment where
  comment_id : String
  text_original : Option String
  author_channel_id : Option String
  author_display_name : Option String
  published_at : DateTime
  updated_at : DateTime
  like_count : Option Int
  parent_id : Option String
  total_reply_count : Option Int
  analysis : Option AnalysisResult
deriving DecidableEq

/-- src/src/schemas.py StoredVideoMetadata (plus `aggregate_analysis`,
modelled from the spec: main.py and aggregation.py use
`video_metadata.aggregate_analysis`, absent from the schemas file under
src/).  The `url` HttpUrl is embedded as its normalised string. -/
structure StoredVideoMetadata where
  retrieved_at : DateTime
  video_id : String
  title : Option String
  published_at : Option DateTime
  view_count : Option Int
  like_count : Option Int
  comment_count : Option Int
  duration_iso : Option String
  channel_id : String
  channel_title : Option String
  tags : Option (List String)
  category_id : Option String
  url : Option String
  last_metadata_update_timestamp : Option DateTime
  total_comment_chars : Option Int
  total_emojis : Option Int
  avg_comment_chars : Option ℚ
  avg_emojis : Option ℚ
  video_sensuality : Option ℚ
  aggregate_analysis : Option AggregateAnalysis
deriving DecidableEq

/-- src/src/schemas.py StoredVideoData. -/
structure StoredVideoData where
  video_metadata : StoredVideoMetadata
  comments : List (String × StoredComment)
  last_comments_check_timestamp : Option DateTime
deriving DecidableEq

/-- src/src/schemas.py ChannelData. -/
structure ChannelData where
  channel_metadata : StoredChannelMetadata
  videos : List (String × StoredVideoData)
  last_video_list_check_timestamp : Option DateTime
deriving DecidableEq

/-- Error raised by `ChannelData.model_validate` on a structurally invalid
payload (pydantic.ValidationError). -/
structure ValidationError where
  msg : String
deriving DecidableEq

/-- Error raised by a failed checkpoint write (any `Exception` inside
`save_app_data`'s try block). -/
structure PersistenceError where
  msg : String
deriving DecidableEq

/-- The serialized (wire) form of StoredChannelMetadata: what
`model_dump_json` emits.  It has every field except `filename_stem`, which
is declared `Field(None, ..., exclude=True)` in src/src/schemas.py and is
therefore omitted from the JSON output.  All remaining fields serialize
injectively and re-validate to themselves (UTC datetimes round-trip through
ISO strings, floats through shortest repr, HttpUrl through its normalised
string), so the wire form keeps them as-is. -/
structure WireChannelMetadata where
  retrieved_at : DateTime
  channel_id : String
  title : Option String
  sanitized_title : Option String
  description : Option String
  custom_url : Option String
  published_at : Option DateTime
  country : Option String
  view_count : Option Int
  subscriber_count : Option Int
  video_count : Option Int
  uploads_playlist_id : Option String
  last_metadata_update_timestamp : Option DateTime
  channel_sensuality : Option ℚ
  avg_emojis_per_comment : Option ℚ
  avg_chars_per_comment : Option ℚ
  last_sensuality_calculation_timestamp : Option DateTime
  aggregate_analysis : Option AggregateAnalysis
deriving DecidableEq

/-- The serialized form of a whole ChannelData document (the content of an
appdata_*.json file produced by `data.model_dump_json`): nested videos,
comments, analysis results and aggregates serialize field-for-field
exactly, so only the channel metadata needs a distinct wire shape. -/
structure WireChannelData where
  channel_metadata : WireChannelMetadata
  videos : List (String × StoredVideoData)
  last_video_list_check_timestamp : Option DateTime
deriving DecidableEq

/-- `model_dump_json` on the channel metadata: every field except the
excluded `filename_stem`. -/
def dump_channel_metadata (m : StoredChannelMetadata) : WireChannelMetadata :=
  { retrieved_at := m.retrieved_at
    channel_id := m.channel_id
    title := m.title
    sanitized_title := m.sanitized_title
    description := m.description
    custom_url := m.custom_url
    published_at := m.published_at
    country := m.country
    view_count := m.view_count
    subscriber_count := m.subscriber_count
    video_count := m.video_count
    uploads_playlist_id := m.uploads_playlist_id
    last_metadata_update_timestamp := m.last_metadata_update_timestamp
    channel_sensuality := m.channel_sensuality
    avg_emojis_per_comment := m.avg_emojis_per_comment
    avg_chars_per_comment := m.avg_chars_per_comment
    last_sensuality_calculation_timestamp := m.last_sensuality_calculation_timestamp
    aggregate_analysis := m.aggregate_analysis }

/-- `StoredChannelMetadata.model_validate` on a structurally valid payload:
rebuilds every field; the absent `filename_stem` takes its declared default
`None`. -/
def parse_channel_metadata (w : WireChannelMetadata) : StoredChannelMetadata :=
  { retrieved_at := w.retrieved_at
    filename_stem := none
    channel_id := w.channel_id
    title := w.title
    sanitized_title := w.sanitized_title
    description := w.description
    custom_url := w.custom_url
    published_at := w.published_at
    country := w.country
    view_count := w.view_count
    subscriber_count := w.subscriber_count
    video_count := w.video_count
    uploads_playlist_id := w.uploads_playlist_id
    last_metadata_update_timestamp := w.last_metadata_update_timestamp
    channel_sensuality := w.channel_sensuality
    avg_emojis_per_comment := w.avg_emojis_per_comment
    avg_chars_per_comment := w.avg_chars_per_comment
    last_sensuality_calculation_timestamp := w.last_sensuality_calculation_timestamp
    aggregate_analysis := w.aggregate_analysis }

/-- `data.model_dump_json` for the whole document (src/src/data_utils.py,
save_app_data line 53). -/
def dump_channel_data (d : ChannelData) : WireChannelData :=
  { channel_metadata := dump_channel_metadata d.channel_metadata
    videos := d.videos
    last_video_list_check_timestamp := d.last_video_list_check_timestamp }

/-- `ChannelData.model_validate` on structurally valid content. -/
def parse_channel_data (w : WireChannelData) : ChannelData :=
  { channel_metadata := parse_channel_metadata w.channel_metadata
    videos := w.videos
    last_video_list_check_timestamp := w.last_video_list_check_timestamp }

/-- A raw JSON payload as handed to `ChannelData.model_validate`: either a
structurally valid document (carried in wire form) or one on which pydantic
validation raises. -/
inductive RawSnapshot where
  | wire (w : WireChannelData)
  | invalid (msg : String)
deriving DecidableEq

/-- `ChannelData.model_validate`: yields the parsed document or raises a
`ValidationError`. -/
def model_validate : RawSnapshot → Except ValidationError ChannelData
  | RawSnapshot.wire w => Except.ok (parse_channel_data w)
  | RawSnapshot.invalid m => Except.error (ValidationError.mk m)

/-- The state of an appdata_*.json file on disk: absent, unparseable JSON
(json.load raises JSONDecodeError), or parsed JSON (which may still fail
schema validation). -/
inductive StoreFile where
  | missing
  | corruptJson (raw : String)
  | parsed (r : RawSnapshot)
deriving DecidableEq

/-- src/src/data_utils.py load_app_data (lines 15-38).  The result type
records the control flow faithfully: a `ValidationError` that escaped the
function would be `Except.error`, but the source wraps the body in
`except (json.JSONDecodeError, ValidationError)` and returns `None`
instead, so every branch is `Except.ok`. -/
def load_app_data (f : StoreFile) : Except ValidationError (Option ChannelData) :=
  match f with
  | StoreFile.missing => Except.ok none
  | StoreFile.corruptJson _ => Except.ok none
  | StoreFile.parsed r =>
    match model_validate r with
    | Except.ok c => Except.ok (some c)
    | Except.error _ => Except.ok none

/-- The file content written by save_app_data on a successful write:
`f.write(data.model_dump_json(indent=4))` (src/src/data_utils.py line 53). -/
def save_app_data_content (d : ChannelData) : StoreFile :=
  StoreFile.parsed (RawSnapshot.wire (dump_channel_data d))

/-- Environment outcome of the file write inside save_app_data's try block. -/
inductive WriteOutcome where
  | success
  | failure (msg : String)
deriving DecidableEq

/-- The write attempt inside save_app_data's try block: raises on failure. -/
def attemptWrite : WriteOutcome → Except PersistenceError Unit
  | WriteOutcome.success => Except.ok ()
  | WriteOutcome.failure m => Except.error (PersistenceError.mk m)

/-- src/src/data_utils.py save_app_data (lines 40-56), control flow: the
write is wrapped in `try ... except Exception as e: app_logger.error(...)`;
the exception is logged and NOT re-raised, so the function returns normally
in both cases. -/
def save_app_data (w : WriteOutcome) : Except PersistenceError Unit :=
  match attemptWrite w with
  | Except.ok _ => Except.ok ()
  | Except.error _ => Except.ok ()

/-- True exactly on `Except.error`. -/
def exceptIsError {ε α : Type} : Except ε α → Bool
  | Except.error _ => true
  | Except.ok _ => false

/-- Inner comment loop of update_data_from_source (src/src/data_utils.py
lines 107-111): add each source comment only when its id is not already
present; existing comments are left untouched. -/
def addMissingComments (base src : List (String × StoredComment)) :
    List (String × StoredComment) :=
  src.foldl (fun cs p =>
    match alookup p.1 cs with
    | some _ => cs
    | none => cs ++ [p]) base

/-- One iteration of the video loop of update_data_from_source
(src/src/data_utils.py lines 94-111): a new video id is inserted wholesale,
an existing one keeps its comment map (extended with missing comments) but
has its metadata replaced by the source's. -/
def mergeVideoStep (vids : List (String × StoredVideoData)) (p : String × StoredVideoData) :
    List (String × StoredVideoData) :=
  match alookup p.1 vids with
  | none => vids ++ [p]
  | some av =>
    setKey p.1
      { av with
        video_metadata := p.2.video_metadata
        comments := addMissingComments av.comments p.2.comments } vids

/-- src/src/data_utils.py update_data_from_source (lines 58-116).  The raw
source dict is validated first (line 78), so an invalid snapshot raises
before anything else happens; with no existing data the validated snapshot
is returned verbatim (line 82); otherwise a deep copy of the existing data
gets the source channel metadata, the merged video map and a fresh
`last_video_list_check_timestamp` (`now` is the merge instant). -/
def update_data_from_source (existing_data : Option ChannelData) (source : RawSnapshot)
    (now : DateTime) : Except ValidationError ChannelData :=
  match model_validate source with
  | Except.error e => Except.error e
  | Except.ok source_channel =>
    match existing_data with
    | none => Except.ok source_channel
    | some ex =>
      let updated := { ex with channel_metadata := source_channel.channel_metadata }
      let updated :=
        { updated with videos := source_channel.videos.foldl mergeVideoStep updated.videos }
      Except.ok { updated with last_video_list_check_timestamp := some now }

/-- src/src/config.py: `MAX_COMMENT_CHARS = 512` is set inside
run_batch_analysis_on_comments (main.py line 95). -/
def MAX_COMMENT_CHARS : Nat := 512

/-- src/src/config.py line 36. -/
def CHECKPOINT_INTERVAL : Nat := 10

/-- The four batch-analysis backends of src/src/analysis.py, treated as black boxes by the
pipeline: each maps an ordered list of texts to a same-length list of
per-item results, `none` for a failed / absent item.  The irony backend's
raw dict output together with `IronyResult.model_validate` (main.py line
135, applied only to truthy dicts) is folded into `Option IronyResult`. -/
structure Stages where
  persian_emotion : List String → List (Option (List (String × ℚ)))
  translation : List String → List (Option String)
  english_emotion : List String → List (Option (List (String × ℚ)))
  irony : List String → List (Option IronyResult)

/-- main.py lines 98-103: the batch of texts prepared once per chunk and
passed to BOTH the Persian sentiment stage and the translation stage —
`text = c.text_original or ""` then `text[:MAX_COMMENT_CHARS]`. -/
def stageSourceTexts (comments : List StoredComment) : List String :=
  comments.map (fun c => pyTake (c.text_original.getD "") MAX_COMMENT_CHARS)

/-- main.py lines 112-117: `for i, text in enumerate(translated_texts): if
text:` — keep the (index, truncated translation) of every translation that
is neither `None` nor the empty string. -/
def englishActive (translated : List (Option String)) : List (Nat × String) :=
  (enumFrom 0 translated).filterMap (fun p =>
    match p.2 with
    | some s => if s = "" then none else some (p.1, pyTake s MAX_COMMENT_CHARS)
    | none => none)

/-- main.py lines 126-130: scatter the sparse stage results back into a
full-length result list (`[None] * len(comments)` with
`results[sparse_idx] = sparse[i]`); positions never written stay `None`. -/
def remap {α : Type} (n : Nat) (idxs : List Nat) (vals : List (Option α)) :
    List (Option α) :=
  (List.range n).map (fun j => (alookup j (idxs.zip vals)).getD none)

/-- main.py lines 132-145 (step 4): build an AnalysisResult from the i-th
entry of each result list and attach it — unconditionally — to the i-th
comment (`comment.analysis = analysis_result`). -/
def assignResults (now : DateTime) (comments : List StoredComment)
    (pers : List (Option (List (String × ℚ)))) (trans : List (Option String))
    (eng : List (Option (List (String × ℚ)))) (ir : List (Option IronyResult)) :
    List StoredComment :=
  (enumFrom 0 comments).map (fun p =>
    { p.2 with
      analysis := some
        { persian_sentiment := (pers.get? p.1).getD none
          english_translation := (trans.get? p.1).getD none
          english_emotions := (eng.get? p.1).getD none
          english_irony := (ir.get? p.1).getD none
          analyzed_at := now } })

/-- main.py run_batch_analysis_on_comments (lines 80-157).  Returns the
updated comment objects (mutated in place in the source; returned
explicitly here) and `processed_count`, which the loop increments once per
comment of the input list. -/
def run_batch_analysis_on_comments (stages : Stages) (now : DateTime)
    (comments : List StoredComment) : List StoredComment × Nat :=
  if comments.isEmpty then ([], 0)
  else
    let persian_texts := stageSourceTexts comments
    let persian_results := stages.persian_emotion persian_texts
    let translated_texts := stages.translation persian_texts
    let active := englishActive translated_texts
    let english_texts := active.map Prod.snd
    let eng_sparse :=
      if english_texts.isEmpty then [] else stages.english_emotion english_texts
    let irony_sparse :=
      if english_texts.isEmpty then [] else stages.irony english_texts
    let eng_full := remap comments.length (active.map Prod.fst) eng_sparse
    let irony_full := remap comments.length (active.map Prod.fst) irony_sparse
    (assignResults now comments persian_results translated_texts eng_full irony_full,
      comments.length)

/-- src/src/aggregation.py calculate_video_aggregates helper: the comments
of a video that already carry an analysis (lines 24-26). -/
def analyzedComments (v : StoredVideoData) : List StoredComment :=
  (v.comments.map Prod.snd).filter (fun c => c.analysis.isSome)

/-- Python `round` (banker's rounding, round-half-to-even) on a rational. -/
def pyRound (q : ℚ) : ℤ :=
  let f := ⌊q⌋
  let r := q - f
  if r < 1 / 2 then f
  else if 1 / 2 < r then f + 1
  else if f % 2 = 0 then f else f + 1

/-- Python `round(x, 4)`. -/
def round4 (q : ℚ) : ℚ :=
  (pyRound (q * 10000) : ℚ) / 10000

/-- `defaultdict(float)` update `sums[label] += x`: add into the existing
entry (keeping its insertion position), or append a new entry. -/
def bump (m : List (String × ℚ)) (l : String) (x : ℚ) : List (String × ℚ) :=
  match alookup l m with
  | some _ => m.map (fun p => if p.1 = l then (p.1, p.2 + x) else p)
  | none => m ++ [(l, x)]

/-- Accumulate one label→score map into a defaultdict, each entry weighted
by `f` (`f p = p.2` for the plain sums of calculate_video_aggregates,
`f p = p.2 * n` for the weighted sums of calculate_channel_aggregates). -/
def foldBump (f : String × ℚ → ℚ) (acc m : List (String × ℚ)) : List (String × ℚ) :=
  m.foldl (fun a p => bump a p.1 (f p)) acc

/-- src/src/aggregation.py calculate_video_aggregates (lines 13-79).
`if comment.analysis.persian_sentiment:` is Python truthiness: the map must
be non-None and non-empty; likewise for the emotion map, and the irony
label must be a non-None non-empty string.  The final `x or None` turns an
empty result map into `None`. -/
def calculate_video_aggregates (now : DateTime) (v : StoredVideoData) :
    Option AggregateAnalysis :=
  let acs := analyzedComments v
  if acs.isEmpty then none
  else
    let total : ℚ := acs.length
    let psums := acs.foldl (fun acc c =>
      match c.analysis with
      | some a =>
        match a.persian_sentiment with
        | some m => if m.isEmpty then acc else foldBump (fun p => p.2) acc m
        | none => acc
      | none => acc) []
    let esums := acs.foldl (fun acc c =>
      match c.analysis with
      | some a =>
        match a.english_emotions with
        | some m => if m.isEmpty then acc else foldBump (fun p => p.2) acc m
        | none => acc
      | none => acc) []
    let icounts := acs.foldl (fun acc c =>
      match c.analysis with
      | some a =>
        match a.english_irony with
        | some ir =>
          match ir.label with
          | some l => if l = "" then acc else bump acc l 1
          | none => acc
        | none => acc
      | none => acc) []
    let avg_p := psums.map (fun p => (p.1, round4 (p.2 / total)))
    let avg_e := esums.map (fun p => (p.1, round4 (p.2 / total)))
    let total_irony : ℚ := (icounts.map Prod.snd).sum
    let idist :=
      if 0 < total_irony then icounts.map (fun p => (p.1, round4 (p.2 / total_irony)))
      else []
    some
      { total_analyzed_comments := acs.length
        avg_persian_sentiment := if avg_p.isEmpty then none else some avg_p
        avg_english_emotions := if avg_e.isEmpty then none else some avg_e
        irony_distribution := if idist.isEmpty then none else some idist
        last_calculated_at := now }

/-- src/src/aggregation.py calculate_channel_aggregates helper (lines
95-98): the per-video aggregates of the videos that have one, in video
insertion order. -/
def channelAggContribs (d : ChannelData) : List AggregateAnalysis :=
  ((d.videos.map (fun p => p.2.video_metadata)).filter
    (fun m => m.aggregate_analysis.isSome)).filterMap (fun m => m.aggregate_analysis)

/-- The channel-wide analyzed-comment total of calculate_channel_aggregates
(lines 103-113): the sum of `total_analyzed_comments` over the videos with
a per-video aggregate. -/
def channelTotal (d : ChannelData) : Nat :=
  ((channelAggContribs d).map (fun a => a.total_analyzed_comments)).sum

/-- One iteration of the weighted-sum accumulation loop of
calculate_channel_aggregates for the label map selected by `get` (lines
110-128): `sums[label] += avg_score * num_comments_in_video` for each entry
of this video's map, skipping videos whose map is falsy (None or empty). -/
def channelSumStep (get : AggregateAnalysis → Option (List (String × ℚ)))
    (acc : List (String × ℚ)) (agg : AggregateAnalysis) : List (String × ℚ) :=
  match get agg with
  | some m =>
    if m.isEmpty then acc
    else foldBump (fun p => p.2 * (agg.total_analyzed_comments : ℚ)) acc m
  | none => acc

/-- The weighted-sum accumulation loop of calculate_channel_aggregates for
one of the three label maps. -/
def channelWeightedSums (get : AggregateAnalysis → Option (List (String × ℚ)))
    (contribs : List AggregateAnalysis) : List (String × ℚ) :=
  contribs.foldl (channelSumStep get) []

/-- src/src/aggregation.py calculate_channel_aggregates (lines 82-156):
weighted combination of the per-video aggregates, `None` when no video has
an aggregate or the analyzed total is zero; each final map is the weighted
sums divided by the channel-wide total, rounded to 4 decimals, with an
empty map collapsed to `None` by `x or None`. -/
def calculate_channel_aggregates (now : DateTime) (d : ChannelData) :
    Option AggregateAnalysis :=
  let contribs := channelAggContribs d
  if contribs.isEmpty then none
  else
    let total := channelTotal d
    if total = 0 then none
    else
      let favg_p := (channelWeightedSums (fun a => a.avg_persian_sentiment) contribs).map
        (fun p => (p.1, round4 (p.2 / (total : ℚ))))
      let favg_e := (channelWeightedSums (fun a => a.avg_english_emotions) contribs).map
        (fun p => (p.1, round4 (p.2 / (total : ℚ))))
      let fdist := (channelWeightedSums (fun a => a.irony_distribution) contribs).map
        (fun p => (p.1, round4 (p.2 / (total : ℚ))))
      some
        { total_analyzed_comments := total
          avg_persian_sentiment := if favg_p.isEmpty then none else some favg_p
          avg_english_emotions := if favg_e.isEmpty then none else some favg_e
          irony_distribution := if fdist.isEmpty then none else some fdist
          last_calculated_at := now }

/-- The comment dict of video `vid` in the store (empty when the video is
absent). -/
def commentsOf (st : ChannelData) (vid : String) : List (String × StoredComment) :=
  match alookup vid st.videos with
  | some v => v.comments
  | none => []

/-- Writing an updated comment object back to its address in the store:
in the source the comment objects handed to the processor are the store's
own objects, so `comment.analysis = ...` mutates the store in place. -/
def setComment (st : ChannelData) (vid cid : String) (c : StoredComment) : ChannelData :=
  { st with
    videos := adjust vid (fun v => { v with comments := setKey cid c v.comments }) st.videos }

/-- The per-video half of main.py update_and_log_aggregates (lines 163-166):
`if video_agg:` keeps the old aggregate when the fresh computation is None. -/
def applyVideoAgg (now : DateTime) (v : StoredVideoData) : StoredVideoData :=
  match calculate_video_aggregates now v with
  | some agg =>
    { v with video_metadata := { v.video_metadata with aggregate_analysis := some agg } }
  | none => v

/-- main.py update_and_log_aggregates (lines 159-172): refresh every video
aggregate, then the channel aggregate from the refreshed videos. -/
def update_and_log_aggregates (now : DateTime) (st : ChannelData) : ChannelData :=
  let st1 := { st with videos := st.videos.map (fun p => (p.1, applyVideoAgg now p.2)) }
  match calculate_channel_aggregates now st1 with
  | some agg =>
    { st1 with
      channel_metadata := { st1.channel_metadata with aggregate_analysis := some agg } }
  | none => st1

/-- main.py line 189: `num_chunks = math.ceil(total / CHECKPOINT_INTERVAL)`. -/
def numChunks (total : Nat) : Nat :=
  (total + CHECKPOINT_INTERVAL - 1) / CHECKPOINT_INTERVAL

/-- main.py lines 193-196: chunk i is
`all_comments[i*INTERVAL : i*INTERVAL + INTERVAL]`. -/
def chunksOf {α : Type} (xs : List α) : List (List α) :=
  (List.range (numChunks xs.length)).map
    (fun i => (xs.drop (i * CHECKPOINT_INTERVAL)).take CHECKPOINT_INTERVAL)

/-- One chunk iteration of process_comment_list_with_checkpoints (lines
196-204): fetch the chunk's comment objects from the store, run the batch
analysis, and write the mutated objects back to their addresses. -/
def chunkStep (stages : Stages) (now : DateTime) (st : ChannelData) (vid : String)
    (chunk : List String) : ChannelData × Nat :=
  let found := chunk.filterMap (fun cid =>
    (alookup cid (commentsOf st vid)).map (fun c => (cid, c)))
  let res := run_batch_analysis_on_comments stages now (found.map Prod.snd)
  let st' := ((found.map Prod.fst).zip res.1).foldl
    (fun s p => setComment s vid p.1 p.2) st
  (st', res.2)

/-- The body of the chunk loop of process_comment_list_with_checkpoints
(main.py lines 193-213): run the chunk, and when `processed_in_chunk > 0`
add it to the running count, refresh all aggregates and hand the store to
the persistence sink (the third component accumulates the stores passed to
`save_app_data`, in call order). -/
def checkpointStep (stages : Stages) (now : DateTime) (vid : String)
    (acc : ChannelData × Nat × List ChannelData) (chunk : List String) :
    ChannelData × Nat × List ChannelData :=
  let step := chunkStep stages now acc.1 vid chunk
  if 0 < step.2 then
    let st2 := update_and_log_aggregates now step.1
    (st2, acc.2.1 + step.2, acc.2.2 ++ [st2])
  else (step.1, acc.2.1, acc.2.2)

/-- main.py process_comment_list_with_checkpoints (lines 174-216), acting on
the candidate comments addressed by `ids` inside video `vid` of the store.
Returns the final store, `processed_count_total`, and the trace of stores
handed to the persistence sink. -/
def process_comment_list_with_checkpoints (stages : Stages) (now : DateTime)
    (st : ChannelData) (vid : String) (ids : List String) :
    ChannelData × Nat × List ChannelData :=
  (chunksOf ids).foldl (checkpointStep stages now vid) (st, 0, [])

/-- Candidate selection of main.py (handle_batch_analysis line 242,
handle_video_analysis line 282): the ids of the comments of a video whose
`analysis is None`. -/
def candidate_ids (st : ChannelData) (vid : String) : List String :=
  ((commentsOf st vid).filter (fun p => p.2.analysis.isNone)).map Prod.fst

section DictLemmas

variable {κ V : Type} [DecidableEq κ]

theorem alookup_append_left {k : κ} {v : V} {xs : List (κ × V)} (ys : List (κ × V))
    (h : alookup k xs = some v) : alookup k (xs ++ ys) = some v := by
  induction xs with
  | nil => simp [alookup] at h
  | cons p rest ih =>
    by_cases hpk : p.1 = k
    · simpa [alookup, hpk] using h
    · simp only [alookup, hpk, if_false, List.cons_append] at h ⊢
      exact ih h

theorem alookup_append_right {k : κ} {xs : List (κ × V)} (ys : List (κ × V))
    (h : alookup k xs = none) : alookup k (xs ++ ys) = alookup k ys := by
  induction xs with
  | nil => simp
  | cons p rest ih =>
    by_cases hpk : p.1 = k
    · simp [alookup, hpk] at h
    · simp only [alookup, hpk, if_false, List.cons_append] at h ⊢
      exact ih h

theorem alookup_setKey_self (k : κ) (v : V) (xs : List (κ × V)) :
    alookup k (setKey k v xs) = some v := by
  induction xs with
  | nil => simp [setKey, alookup]
  | cons p rest ih =>
    by_cases hpk : p.1 = k
    · simp [setKey, hpk, alookup]
    · simp [setKey, hpk, alookup, ih]

theorem alookup_setKey_ne {k' k : κ} (h : k' ≠ k) (v : V) (xs : List (κ × V)) :
    alookup k' (setKey k v xs) = alookup k' xs := by
  have hne : k ≠ k' := fun he => h he.symm
  induction xs with
  | nil => simp [setKey, alookup, hne]
  | cons p rest ih =>
    by_cases hpk : p.1 = k
    · subst hpk
      simp [setKey, alookup, hne]
    · simp [setKey, hpk, alookup, ih]

theorem setKey_eq_of_alookup {k : κ} {v : V} {xs : List (κ × V)}
    (h : alookup k xs = some v) : setKey k v xs = xs := by
  induction xs with
  | nil => simp [alookup] at h
  | cons p rest ih =>
    by_cases hpk : p.1 = k
    · simp only [alookup, hpk, if_true] at h
      obtain rfl := Option.some_injective _ h
      simp only [setKey, hpk, if_true]
      rw [← hpk]
    · simp only [alookup, hpk, if_false] at h
      simp [setKey, hpk, ih h]

theorem keys_setKey {k : κ} {xs : List (κ × V)} (v : V)
    (h : (alookup k xs).isSome) :
    (setKey k v xs).map Prod.fst = xs.map Prod.fst := by
  induction xs with
  | nil => simp [alookup] at h
  | cons p rest ih =>
    by_cases hpk : p.1 = k
    · simp [setKey, hpk]
    · simp only [alookup, hpk, if_false] at h
      simp [setKey, hpk, ih h]

theorem alookup_adjust_self (k : κ) (f : V → V) (xs : List (κ × V)) :
    alookup k (adjust k f xs) = (alookup k xs).map f := by
  induction xs with
  | nil => simp [adjust, alookup]
  | cons p rest ih =>
    by_cases hpk : p.1 = k
    · simp [adjust, hpk, alookup]
    · simp [adjust, hpk, alookup, ih]

theorem alookup_adjust_ne {k' k : κ} (h : k' ≠ k) (f : V → V) (xs : List (κ × V)) :
    alookup k' (adjust k f xs) = alookup k' xs := by
  have hne : k ≠ k' := fun he => h he.symm
  induction xs with
  | nil => simp [adjust]
  | cons p rest ih =>
    by_cases hpk : p.1 = k
    · subst hpk
      simp [adjust, alookup, hne, ih]
    · simp [adjust, hpk, alookup, ih]

theorem alookup_map_value {W : Type} (k : κ) (g : V → W) (xs : List (κ × V)) :
    alookup k (xs.map (fun p => (p.1, g p.2))) = (alookup k xs).map g := by
  induction xs with
  | nil => simp [alookup]
  | cons p rest ih =>
    by_cases hpk : p.1 = k
    · simp [alookup, hpk]
    · simp [alookup, hpk, ih]

theorem alookup_isSome_of_mem {k : κ} {v : V} {xs : List (κ × V)}
    (h : (k, v) ∈ xs) : (alookup k xs).isSome := by
  induction xs with
  | nil => simp at h
  | cons p rest ih =>
    by_cases hpk : p.1 = k
    · simp [alookup, hpk]
    · simp only [alookup, hpk, if_false]
      rcases List.mem_cons.mp h with h0 | h1
      · exact absurd (congrArg Prod.fst h0.symm) hpk
      · exact ih h1

theorem alookup_of_mem_nodup {k : κ} {v : V} {xs : List (κ × V)}
    (hnd : (xs.map Prod.fst).Nodup) (h : (k, v) ∈ xs) : alookup k xs = some v := by
  induction xs with
  | nil => simp at h
  | cons p rest ih =>
    rcases List.mem_cons.mp h with h0 | h1
    · subst h0
      simp [alookup]
    · have hnd' : p.1 ∉ rest.map Prod.fst ∧ (rest.map Prod.fst).Nodup := by
        simpa using hnd
      have hpk : p.1 ≠ k := by
        intro he
        have hk : k ∈ rest.map Prod.fst := List.mem_map.mpr ⟨(k, v), h1, rfl⟩
        exact hnd'.1 (by rw [he]; exact hk)
      simp only [alookup, hpk, if_false]
      exact ih hnd'.2 h1

theorem mem_of_alookup {k : κ} {v : V} {xs : List (κ × V)}
    (h : alookup k xs = some v) : (k, v) ∈ xs := by
  induction xs with
  | nil => simp [alookup] at h
  | cons p rest ih =>
    by_cases hpk : p.1 = k
    · simp only [alookup, hpk, if_true] at h
      obtain rfl := Option.some_injective _ h
      simp [← hpk]
    · simp only [alookup, hpk, if_false] at h
      exact List.mem_cons_of_mem p (ih h)

end DictLemmas

theorem enumFrom_length {α : Type} (n : Nat) (l : List α) :
    (enumFrom n l).length = l.length := by
  induction l generalizing n with
  | nil => rfl
  | cons x xs ih => simp [enumFrom, ih]

theorem enumFrom_get? {α : Type} (n : Nat) (l : List α) (i : Nat) :
    (enumFrom n l).get? i = (l.get? i).map (fun x => (n + i, x)) := by
  induction l generalizing n i with
  | nil => simp [enumFrom]
  | cons x xs ih =>
    cases i with
    | zero => simp [enumFrom]
    | succ j =>
      have e : n + (j + 1) = n + 1 + j := by omega
      simp only [enumFrom, List.get?]
      rw [ih (n + 1) j, e]

theorem mem_enumFrom {α : Type} {p : Nat × α} :
    ∀ {n : Nat} {l : List α}, p ∈ enumFrom n l → n ≤ p.1 ∧ l.get? (p.1 - n) = some p.2 := by
  intro n l
  induction l generalizing n with
  | nil => intro h; simp [enumFrom] at h
  | cons x xs ih =>
    intro h
    rcases List.mem_cons.mp h with h0 | h1
    · subst h0
      simp
    · obtain ⟨hle, hget⟩ := ih h1
      refine ⟨by omega, ?_⟩
      have : p.1 - n = (p.1 - (n + 1)) + 1 := by omega
      rw [this]
      simpa using hget

theorem addMissingComments_preserves {cid : String} {c : StoredComment} :
    ∀ (src : List (String × StoredComment)) {base : List (String × StoredComment)},
      alookup cid base = some c → alookup cid (addMissingComments base src) = some c := by
  intro src
  induction src with
  | nil => intro base h; simpa [addMissingComments] using h
  | cons p rest ih =>
    intro base h
    have hunfold : addMissingComments base (p :: rest) =
        addMissingComments
          (match alookup p.1 base with
           | some _ => base
           | none => base ++ [p]) rest := by
      simp [addMissingComments]
    rw [hunfold]
    cases hm : alookup p.1 base with
    | some av => simpa [hm] using ih h
    | none =>
      have : alookup cid (base ++ [p]) = some c := alookup_append_left _ h
      simpa [hm] using ih this

theorem addMissingComments_self :
    ∀ (src base : List (String × StoredComment)),
      (∀ q ∈ src, (alookup q.1 base).isSome) → addMissingComments base src = base := by
  intro src
  induction src with
  | nil => intro base _; simp [addMissingComments]
  | cons p rest ih =>
    intro base h
    have hp : (alookup p.1 base).isSome := h p (List.mem_cons_self p rest)
    obtain ⟨av, hav⟩ := Option.isSome_iff_exists.mp hp
    have hunfold : addMissingComments base (p :: rest) =
        addMissingComments
          (match alookup p.1 base with
           | some _ => base
           | none => base ++ [p]) rest := by
      simp [addMissingComments]
    rw [hunfold, hav]
    exact ih base (fun q hq => h q (List.mem_cons_of_mem p hq))

theorem mergeVideoStep_fold_preserves :
    ∀ (src : List (String × StoredVideoData)) {base : List (String × StoredVideoData)}
      {vid : String} {v : StoredVideoData}, alookup vid base = some v →
      ∃ v', alookup vid (src.foldl mergeVideoStep base) = some v' ∧
        ∀ cid c, alookup cid v.comments = some c → alookup cid v'.comments = some c := by
  intro src
  induction src with
  | nil => intro base vid v h; exact ⟨v, by simpa using h, fun _ _ hc => hc⟩
  | cons p rest ih =>
    intro base vid v h
    rw [List.foldl_cons]
    cases hm : alookup p.1 base with
    | none =>
      have hstep : mergeVideoStep base p = base ++ [p] := by simp [mergeVideoStep, hm]
      rw [hstep]
      exact ih (alookup_append_left _ h)
    | some av =>
      have hstep : mergeVideoStep base p =
          setKey p.1
            { av with
              video_metadata := p.2.video_metadata
              comments := addMissingComments av.comments p.2.comments } base := by
        simp [mergeVideoStep, hm]
      rw [hstep]
      by_cases hvv : vid = p.1
      · have hva : av = v := by
          rw [hvv] at h
          exact Option.some_injective _ (hm.symm.trans h)
        have hsk : alookup vid (setKey p.1
            { av with
              video_metadata := p.2.video_metadata
              comments := addMissingComments av.comments p.2.comments } base) =
            some { av with
              video_metadata := p.2.video_metadata
              comments := addMissingComments av.comments p.2.comments } := by
          rw [hvv]
          exact alookup_setKey_self _ _ _
        obtain ⟨v', hv', hcomm⟩ := ih hsk
        refine ⟨v', hv', fun cid c hc => hcomm cid c ?_⟩
        have hcav : alookup cid av.comments = some c := by rw [hva]; exact hc
        exact addMissingComments_preserves _ hcav
      · have hne : alookup vid (setKey p.1
            { av with
              video_metadata := p.2.video_metadata
              comments := addMissingComments av.comments p.2.comments } base) = some v := by
          rw [alookup_setKey_ne hvv]
          exact h
        exact ih hne

theorem mergeVideoStep_fold_self :
    ∀ (l base : List (String × StoredVideoData)),
      (∀ p ∈ l, alookup p.1 base = some p.2) → l.foldl mergeVideoStep base = base := by
  intro l
  induction l with
  | nil => intro base _; rfl
  | cons p rest ih =>
    intro base h
    have hm : alookup p.1 base = some p.2 := h p (List.mem_cons_self p rest)
    have hcom : addMissingComments p.2.comments p.2.comments = p.2.comments :=
      addMissingComments_self _ _ (fun q hq => alookup_isSome_of_mem (show (q.1, q.2) ∈ _ from hq))
    have hstep : mergeVideoStep base p = base := by
      simp only [mergeVideoStep, hm]
      rw [hcom]
      exact setKey_eq_of_alookup hm
    rw [List.foldl_cons, hstep]
    exact ih base (fun q hq => h q (List.mem_cons_of_mem p hq))

/-- C1: merge is additive and analysis-preserving.  For every existing
canonical store `E` and every structurally valid source snapshot, the merge
succeeds, every video of `E` is still present afterwards, and every comment
of that video is still present under its id with the SAME StoredComment
value — so its stored `text_original` is not overwritten even when the
snapshot carries different text for that comment id, and a non-null
`analysis` stays non-null and byte-for-byte unchanged; no video or comment
is deleted. -/
theorem merge_additive_and_analysis_preserving
    (E : ChannelData) (raw : RawSnapshot) (now : DateTime) (S : ChannelData)
    (hS : model_validate raw = Except.ok S) (vid : String) (v : StoredVideoData)
    (hv : alookup vid E.videos = some v) :
    ∃ R v', update_data_from_source (some E) raw now = Except.ok R ∧
      alookup vid R.videos = some v' ∧
      ∀ cid c, alookup cid v.comments = some c → alookup cid v'.comments = some c := by
  obtain ⟨v', hv', hcomm⟩ := mergeVideoStep_fold_preserves S.videos hv
  refine ⟨{ E with
            channel_metadata := S.channel_metadata
            videos := S.videos.foldl mergeVideoStep E.videos
            last_video_list_check_timestamp := some now }, v', ?_, ?_, hcomm⟩
  · simp [update_data_from_source, hS]
  · exact hv'

/-- C2: merge idempotence.  For a valid snapshot, merge(null, S) returns the
validated snapshot verbatim, and re-merging it into itself changes nothing
except `last_video_list_check_timestamp`, which is re-stamped to the merge
instant. -/
theorem merge_idempotent
    (raw : RawSnapshot) (now : DateTime) (C : ChannelData)
    (hS : model_validate raw = Except.ok C)
    (hnd : (C.videos.map Prod.fst).Nodup) :
    update_data_from_source none raw now = Except.ok C ∧
    update_data_from_source (some C) raw now =
      Except.ok { C with last_video_list_check_timestamp := some now } := by
  constructor
  · simp [update_data_from_source, hS]
  · have hself : C.videos.foldl mergeVideoStep C.videos = C.videos :=
      mergeVideoStep_fold_self _ _
        (fun p hp => alookup_of_mem_nodup hnd (show (p.1, p.2) ∈ _ from hp))
    simp [update_data_from_source, hS, hself]

/-- Concrete channel metadata used by the witness instantiations. -/
def testChannelMeta : StoredChannelMetadata :=
  { retrieved_at := 0
    filename_stem := none
    channel_id := "ch"
    title := some "T"
    sanitized_title := none
    description := none
    custom_url := none
    published_at := none
    country := none
    view_count := some 0
    subscriber_count := some 0
    video_count := some 1
    uploads_playlist_id := none
    last_metadata_update_timestamp := none
    channel_sensuality := none
    avg_emojis_per_comment := none
    avg_chars_per_comment := none
    last_sensuality_calculation_timestamp := none
    aggregate_analysis := none }

/-- Concrete video metadata used by the witness instantiations. -/
def testVideoMeta (vidId : String) : StoredVideoMetadata :=
  { retrieved_at := 0
    video_id := vidId
    title := some "V"
    published_at := none
    view_count := some 0
    like_count := some 0
    comment_count := some 0
    duration_iso := none
    channel_id := "ch"
    channel_title := none
    tags := some []
    category_id := none
    url := none
    last_metadata_update_timestamp := none
    total_comment_chars := none
    total_emojis := none
    avg_comment_chars := none
    avg_emojis := none
    video_sensuality := none
    aggregate_analysis := none }

/-- Concrete comment used by the witness instantiations. -/
def testComment (cidId : String) (txt : Option String) (an : Option AnalysisResult) :
    StoredComment :=
  { comment_id := cidId
    text_original := txt
    author_channel_id := none
    author_display_name := none
    published_at := 0
    updated_at := 0
    like_count := some 0
    parent_id := none
    total_reply_count := some 0
    analysis := an }

/-- A concrete non-null analysis result. -/
def testAnalysis : AnalysisResult :=
  { persian_sentiment := some [("happy", 1)]
    english_translation := some "hi"
    english_emotions := none
    english_irony := none
    analyzed_at := 3 }

/-- The existing video of the C1 witness store: one comment "c" with stored
text "old text" and a non-null analysis. -/
def mergeWitnessVideo : StoredVideoData :=
  { video_metadata := testVideoMeta "v"
    comments := [("c", testComment "c" (some "old text") (some testAnalysis))]
    last_comments_check_timestamp := none }

/-- The existing canonical store of the C1 witness. -/
def mergeWitnessStore : ChannelData :=
  { channel_metadata := testChannelMeta
    videos := [("v", mergeWitnessVideo)]
    last_video_list_check_timestamp := none }

/-- The C1 witness snapshot: the same video and comment id "c", but with
DIFFERENT text and no analysis, plus a brand-new comment "c2". -/
def mergeWitnessSnapshot : WireChannelData :=
  { channel_metadata := dump_channel_metadata testChannelMeta
    videos :=
      [("v",
        { video_metadata := testVideoMeta "v"
          comments :=
            [("c", testComment "c" (some "different text") none),
             ("c2", testComment "c2" (some "new") none)]
          last_comments_check_timestamp := none })]
    last_video_list_check_timestamp := none }

/-- Witness for C1 at a snapshot that carries different text for an already
stored, already analyzed comment. -/
theorem merge_additive_witness :
    ∃ R v', update_data_from_source (some mergeWitnessStore)
        (RawSnapshot.wire mergeWitnessSnapshot) 5 = Except.ok R ∧
      alookup "v" R.videos = some v' ∧
      ∀ cid c, alookup cid mergeWitnessVideo.comments = some c →
        alookup cid v'.comments = some c :=
  merge_additive_and_analysis_preserving mergeWitnessStore
    (RawSnapshot.wire mergeWitnessSnapshot) 5
    (parse_channel_data mergeWitnessSnapshot) rfl "v" mergeWitnessVideo rfl

/-- Witness for C2 at a concrete two-comment snapshot. -/
theorem merge_idempotent_witness :
    update_data_from_source none (RawSnapshot.wire mergeWitnessSnapshot) 7 =
      Except.ok (parse_channel_data mergeWitnessSnapshot) ∧
    update_data_from_source (some (parse_channel_data mergeWitnessSnapshot))
        (RawSnapshot.wire mergeWitnessSnapshot) 7 =
      Except.ok { parse_channel_data mergeWitnessSnapshot with
                    last_video_list_check_timestamp := some 7 } :=
  merge_idempotent (RawSnapshot.wire mergeWitnessSnapshot) 7
    (parse_channel_data mergeWitnessSnapshot) rfl (by decide)

/-- C5 (amended): the save→load round trip is exact on every field
whenever `channel_metadata.filename_stem` is `None` (the only field
excluded from serialization); a store with a non-None `filename_stem` comes
back with it reset to `None`. -/
theorem save_load_roundtrip_exact (d : ChannelData)
    (h : d.channel_metadata.filename_stem = none) :
    load_app_data (save_app_data_content d) = Except.ok (some d) := by
  have hred : load_app_data (save_app_data_content d) =
      Except.ok (some (parse_channel_data (dump_channel_data d))) := rfl
  have hpd : parse_channel_data (dump_channel_data d) =
      { d with channel_metadata := { d.channel_metadata with filename_stem := none } } := rfl
  rw [hred, hpd, ← h]

/-- A store whose metadata carries a non-None `filename_stem`. -/
def roundtripBadStore : ChannelData :=
  { channel_metadata := { testChannelMeta with filename_stem := some "stem" }
    videos := []
    last_video_list_check_timestamp := none }

/-- Counterexample to C5 as stated: saving and reloading a store whose
`filename_stem` is set does NOT reproduce it exactly — the excluded field
comes back as `None`. -/
theorem save_load_roundtrip_counterexample :
    load_app_data (save_app_data_content roundtripBadStore) =
      Except.ok (some (parse_channel_data (dump_channel_data roundtripBadStore))) ∧
    parse_channel_data (dump_channel_data roundtripBadStore) ≠ roundtripBadStore ∧
    roundtripBadStore.channel_metadata.filename_stem = some "stem" ∧
    (parse_channel_data
      (dump_channel_data roundtripBadStore)).channel_metadata.filename_stem = none :=
  ⟨rfl, by decide, rfl, rfl⟩

/-- Witness for the amended C5 at a concrete store with nested video,
comments and analysis. -/
theorem save_load_roundtrip_witness :
    load_app_data (save_app_data_content mergeWitnessStore) =
      Except.ok (some mergeWitnessStore) :=
  save_load_roundtrip_exact mergeWitnessStore rfl

/-- C6 (amended): an invalid source snapshot makes
`update_data_from_source` propagate the ValidationError before any merge
work (the function validates first, so no merged store is produced and the
existing store value is untouched); an invalid canonical store FILE,
however, does not propagate: `load_app_data` catches the ValidationError
and returns None. -/
theorem validation_failure_merge_propagates_load_swallows
    (existing : Option ChannelData) (raw : RawSnapshot) (now : DateTime)
    (e : ValidationError) (h : model_validate raw = Except.error e) :
    update_data_from_source existing raw now = Except.error e ∧
    load_app_data (StoreFile.parsed raw) = Except.ok none := by
  constructor
  · simp [update_data_from_source, h]
  · simp [load_app_data, h]

/-- Witness for the amended C6 at a concrete invalid payload. -/
theorem validation_failure_witness :
    update_data_from_source (some mergeWitnessStore) (RawSnapshot.invalid "bad") 9 =
      Except.error (ValidationError.mk "bad") ∧
    load_app_data (StoreFile.parsed (RawSnapshot.invalid "bad")) = Except.ok none :=
  validation_failure_merge_propagates_load_swallows (some mergeWitnessStore)
    (RawSnapshot.invalid "bad") 9 (ValidationError.mk "bad") rfl

/-- Counterexample to C6 as stated: loading a structurally invalid
canonical store file does NOT propagate a ValidationError — load_app_data
catches it and returns None (a normal, non-error result). -/
theorem load_invalid_store_counterexample :
    load_app_data (StoreFile.parsed (RawSnapshot.invalid "corrupt")) = Except.ok none ∧
    exceptIsError (load_app_data (StoreFile.parsed (RawSnapshot.invalid "corrupt"))) = false :=
  ⟨rfl, rfl⟩

/-- C7 (amended): save_app_data returns normally for EVERY write outcome —
a failed checkpoint write is caught by the blanket `except Exception`
handler, logged, and not re-raised, so no error reaches the caller and the
run continues. -/
theorem save_app_data_never_propagates (w : WriteOutcome) :
    save_app_data w = Except.ok () := by
  cases w <;> rfl

/-- Witness for the amended C7 at a concrete failing write. -/
theorem save_app_data_never_propagates_witness :
    save_app_data (WriteOutcome.failure "disk full") = Except.ok () :=
  save_app_data_never_propagates (WriteOutcome.failure "disk full")

/-- Counterexample to C7 as stated: the write inside save_app_data raises
(`attemptWrite` is an error), yet save_app_data returns normally — the
failure is swallowed, not propagated, and the run continues. -/
theorem save_failure_counterexample :
    attemptWrite (WriteOutcome.failure "disk full") =
      Except.error (PersistenceError.mk "disk full") ∧
    save_app_data (WriteOutcome.failure "disk full") = Except.ok () ∧
    exceptIsError (save_app_data (WriteOutcome.failure "disk full")) = false :=
  ⟨rfl, rfl, rfl⟩

theorem assignResults_length (now : DateTime) (comments : List StoredComment)
    (pers : List (Option (List (String × ℚ)))) (trans : List (Option String))
    (eng : List (Option (List (String × ℚ)))) (ir : List (Option IronyResult)) :
    (assignResults now comments pers trans eng ir).length = comments.length := by
  simp [assignResults, enumFrom_length]

theorem assignResults_get? (now : DateTime) (comments : List StoredComment)
    (pers : List (Option (List (String × ℚ)))) (trans : List (Option String))
    (eng : List (Option (List (String × ℚ)))) (ir : List (Option IronyResult)) (i : Nat) :
    (assignResults now comments pers trans eng ir).get? i =
      (comments.get? i).map (fun c =>
        { c with
          analysis := some
            { persian_sentiment := (pers.get? i).getD none
              english_translation := (trans.get? i).getD none
              english_emotions := (eng.get? i).getD none
              english_irony := (ir.get? i).getD none
              analyzed_at := now } }) := by
  simp only [assignResults, List.get?_map, enumFrom_get?]
  cases comments.get? i with
  | none => rfl
  | some c => simp

theorem run_batch_count (stages : Stages) (now : DateTime) (cs : List StoredComment) :
    (run_batch_analysis_on_comments stages now cs).2 = cs.length := by
  by_cases h : cs.isEmpty
  · have : cs = [] := by simpa [List.isEmpty_iff] using h
    subst this
    rfl
  · simp [run_batch_analysis_on_comments, h]

theorem run_batch_length (stages : Stages) (now : DateTime) (cs : List StoredComment) :
    (run_batch_analysis_on_comments stages now cs).1.length = cs.length := by
  by_cases h : cs.isEmpty
  · have : cs = [] := by simpa [List.isEmpty_iff] using h
    subst this
    rfl
  · simp [run_batch_analysis_on_comments, h, assignResults_length]

theorem run_batch_all_analyzed (stages : Stages) (now : DateTime) (cs : List StoredComment) :
    ∀ c' ∈ (run_batch_analysis_on_comments stages now cs).1, c'.analysis.isSome := by
  intro c' hc'
  by_cases h : cs.isEmpty
  · have : cs = [] := by simpa [List.isEmpty_iff] using h
    subst this
    simp [run_batch_analysis_on_comments] at hc'
  · simp only [run_batch_analysis_on_comments, h, Bool.false_eq_true, if_false] at hc'
    simp only [assignResults, List.mem_map] at hc'
    obtain ⟨p, _, rfl⟩ := hc'
    rfl

theorem run_batch_get?_analysis (stages : Stages) (now : DateTime)
    (cs : List StoredComment) (i : Nat) (c : StoredComment) (h : cs.get? i = some c) :
    ∃ a, (run_batch_analysis_on_comments stages now cs).1.get? i =
      some { c with analysis := some a } := by
  have hne : cs.isEmpty = false := by
    cases cs
    · simp at h
    · rfl
  simp only [run_batch_analysis_on_comments, hne, Bool.false_eq_true, if_false,
    assignResults_get?, h, Option.map_some']
  exact ⟨_, rfl⟩

/-- C8 (amended): an empty or missing text is normalised to the empty
string (`c.text_original or ""`) and included in the batch handed to the
source-language sentiment and translation stages like any other comment —
there is no skip — and after the run the comment carries a non-null
AnalysisResult (whose per-stage fields may themselves be null). -/
theorem empty_text_not_skipped (stages : Stages) (now : DateTime)
    (comments : List StoredComment) (i : Nat) (c : StoredComment)
    (hi : comments.get? i = some c) (hempty : c.text_original.getD "" = "") :
    (stageSourceTexts comments).get? i = some "" ∧
    ∃ a, (run_batch_analysis_on_comments stages now comments).1.get? i =
      some { c with analysis := some a } := by
  constructor
  · simp only [stageSourceTexts]
    rw [List.get?_map, hi]
    simp only [Option.map_some']
    rw [hempty]
    decide
  · exact run_batch_get?_analysis stages now comments i c hi

/-- A concrete instance of the four batch stages whose results are all
null (the shape a run takes when every model call fails). -/
def constStages : Stages :=
  { persian_emotion := fun ts => ts.map (fun _ => none)
    translation := fun ts => ts.map (fun _ => none)
    english_emotion := fun ts => ts.map (fun _ => none)
    irony := fun ts => ts.map (fun _ => none) }

/-- Witness for the amended C8 at a concrete empty-text comment. -/
theorem empty_text_not_skipped_witness :
    (stageSourceTexts [testComment "e" (some "") none]).get? 0 = some "" ∧
    ∃ a, (run_batch_analysis_on_comments constStages 0
        [testComment "e" (some "") none]).1.get? 0 =
      some { testComment "e" (some "") none with analysis := some a } :=
  empty_text_not_skipped constStages 0 [testComment "e" (some "") none] 0
    (testComment "e" (some "") none) rfl rfl

/-- Counterexample to C8 as stated: the empty-text comment's text IS placed
in the batch passed to the source stages (so the models are invoked on it),
and after the run its analysis is non-null rather than remaining null. -/
theorem empty_text_skip_counterexample :
    stageSourceTexts [testComment "e" (some "") none] = [""] ∧
    ((run_batch_analysis_on_comments constStages 0
        [testComment "e" (some "") none]).1.map (fun c => c.analysis.isSome)) = [true] :=
  ⟨rfl, rfl⟩

/-- C9 (amended): per comment the original text is truncated ONCE —
`stageSourceTexts` holds `text[:512]` and is the single list handed to
both the source-language sentiment stage and the translation stage (see
run_batch_analysis_on_comments, which applies `stages.persian_emotion` and
`stages.translation` to the same `stageSourceTexts comments`); the two
target-language stages do NOT receive that truncated original: their batch
consists of the successful translation outputs, each itself truncated to
the same 512-character limit. -/
theorem truncation_once_for_source_stages (stages : Stages)
    (comments : List StoredComment) (i : Nat) (c : StoredComment)
    (hi : comments.get? i = some c) :
    (stageSourceTexts comments).get? i =
      some (pyTake (c.text_original.getD "") MAX_COMMENT_CHARS) ∧
    ∀ p ∈ englishActive (stages.translation (stageSourceTexts comments)),
      ∃ t, (stages.translation (stageSourceTexts comments)).get? p.1 = some (some t) ∧
        t ≠ "" ∧ p.2 = pyTake t MAX_COMMENT_CHARS := by
  constructor
  · simp only [stageSourceTexts]
    rw [List.get?_map, hi]
    rfl
  · intro p hp
    simp only [englishActive, List.mem_filterMap] at hp
    obtain ⟨q, hq, hfq⟩ := hp
    obtain ⟨-, hget⟩ := mem_enumFrom hq
    rw [Nat.sub_zero] at hget
    cases hq2 : q.2 with
    | none => rw [hq2] at hfq; simp at hfq
    | some s =>
      rw [hq2] at hfq
      by_cases hs : s = ""
      · simp [hs] at hfq
      · simp only [hs, if_false] at hfq
        obtain rfl := Option.some_injective _ hfq
        refine ⟨s, ?_, hs, rfl⟩
        rw [hget, hq2]

/-- A 600-character text (600 copies of 'a'). -/
def longText600 : String := String.mk (List.replicate 600 'a')

/-- A concrete stage instance whose translation stage returns "HELLO" for
every input. -/
def helloStages : Stages :=
  { persian_emotion := fun ts => ts.map (fun _ => none)
    translation := fun ts => ts.map (fun _ => some "HELLO")
    english_emotion := fun ts => ts.map (fun _ => none)
    irony := fun ts => ts.map (fun _ => none) }

/-- Witness for the amended C9 at a concrete 600-character comment. -/
theorem truncation_once_witness :
    (stageSourceTexts [testComment "L" (some longText600) none]).get? 0 =
      some (pyTake longText600 MAX_COMMENT_CHARS) :=
  (truncation_once_for_source_stages helloStages [testComment "L" (some longText600) none]
    0 (testComment "L" (some longText600) none) rfl).1

set_option maxRecDepth 8000 in
/-- Counterexample to C9 as stated: for a 600-character comment the batch
input of the target-language (emotion/irony) stages is the translation
output "HELLO", not the first 512 characters of the original — the same
truncated string is NOT passed to all four stages. -/
theorem truncation_sharing_counterexample :
    stageSourceTexts [testComment "L" (some longText600) none] =
      [String.mk (List.replicate 512 'a')] ∧
    (englishActive (helloStages.translation
      (stageSourceTexts [testComment "L" (some longText600) none]))).map Prod.snd =
      ["HELLO"] ∧
    ("HELLO" : String) ≠ String.mk (List.replicate 512 'a') :=
  ⟨rfl, rfl, by decide⟩

/-- The comment id `cid` resolves to a comment of video `vid` in the store. -/
def presentAt (st : ChannelData) (vid cid : String) : Prop :=
  (alookup cid (commentsOf st vid)).isSome

/-- The comment id `cid` resolves to a comment of video `vid` that carries a
non-null analysis. -/
def analyzedAt (st : ChannelData) (vid cid : String) : Prop :=
  ∃ c, alookup cid (commentsOf st vid) = some c ∧ c.analysis.isSome

instance (st : ChannelData) (vid cid : String) : Decidable (presentAt st vid cid) := by
  unfold presentAt
  infer_instance

theorem videoOf_present {st : ChannelData} {vid x : String} (h : presentAt st vid x) :
    ∃ v, alookup vid st.videos = some v := by
  unfold presentAt at h
  cases hv : alookup vid st.videos with
  | none => simp [commentsOf, hv, alookup] at h
  | some v => exact ⟨v, rfl⟩

theorem commentsOf_setComment (st : ChannelData) (vid cid : String) (c : StoredComment) :
    commentsOf (setComment st vid cid c) vid =
      match alookup vid st.videos with
      | some v => setKey cid c v.comments
      | none => [] := by
  simp only [commentsOf, setComment, alookup_adjust_self]
  cases alookup vid st.videos <;> rfl

theorem presentAt_setComment {st : ChannelData} {vid x : String} (cid : String)
    (c : StoredComment) (h : presentAt st vid x) :
    presentAt (setComment st vid cid c) vid x := by
  obtain ⟨v, hv⟩ := videoOf_present h
  unfold presentAt at h ⊢
  rw [commentsOf_setComment, hv]
  rw [commentsOf, hv] at h
  by_cases hx : x = cid
  · subst hx
    rw [alookup_setKey_self]
    rfl
  · rw [alookup_setKey_ne hx]
    exact h

theorem analyzedAt_setComment {st : ChannelData} {vid x cid : String}
    {c : StoredComment} (hc : c.analysis.isSome) (h : analyzedAt st vid x) :
    analyzedAt (setComment st vid cid c) vid x := by
  obtain ⟨c0, hc0, hcs0⟩ := h
  have hpres : presentAt st vid x := by unfold presentAt; rw [hc0]; rfl
  obtain ⟨v, hv⟩ := videoOf_present hpres
  unfold analyzedAt
  rw [commentsOf_setComment, hv]
  rw [commentsOf, hv] at hc0
  by_cases hx : x = cid
  · subst hx
    exact ⟨c, alookup_setKey_self _ _ _, hc⟩
  · exact ⟨c0, by rw [alookup_setKey_ne hx]; exact hc0, hcs0⟩

theorem setComment_analyzes {st : ChannelData} {vid cid : String} {c : StoredComment}
    (hc : c.analysis.isSome) (h : presentAt st vid cid) :
    analyzedAt (setComment st vid cid c) vid cid := by
  obtain ⟨v, hv⟩ := videoOf_present h
  unfold analyzedAt
  rw [commentsOf_setComment, hv]
  exact ⟨c, alookup_setKey_self _ _ _, hc⟩

theorem keys_setComment {st : ChannelData} {vid cid : String} (c : StoredComment)
    (h : presentAt st vid cid) :
    (commentsOf (setComment st vid cid c) vid).map Prod.fst =
      (commentsOf st vid).map Prod.fst := by
  obtain ⟨v, hv⟩ := videoOf_present h
  unfold presentAt at h
  rw [commentsOf, hv] at h
  rw [commentsOf_setComment, hv, commentsOf, hv]
  exact keys_setKey c h

theorem wb_preserves_present {vid x : String} :
    ∀ (pairs : List (String × StoredComment)) (st : ChannelData),
      presentAt st vid x →
      presentAt (pairs.foldl (fun s p => setComment s vid p.1 p.2) st) vid x := by
  intro pairs
  induction pairs with
  | nil => intro st h; exact h
  | cons p rest ih =>
    intro st h
    rw [List.foldl_cons]
    exact ih _ (presentAt_setComment p.1 p.2 h)

theorem wb_preserves_analyzed {vid x : String} :
    ∀ (pairs : List (String × StoredComment)) (st : ChannelData),
      (∀ p ∈ pairs, p.2.analysis.isSome) → analyzedAt st vid x →
      analyzedAt (pairs.foldl (fun s p => setComment s vid p.1 p.2) st) vid x := by
  intro pairs
  induction pairs with
  | nil => intro st _ h; exact h
  | cons p rest ih =>
    intro st hall h
    rw [List.foldl_cons]
    exact ih _ (fun q hq => hall q (List.mem_cons_of_mem p hq))
      (analyzedAt_setComment (hall p (List.mem_cons_self p rest)) h)

theorem wb_analyzes {vid : String} :
    ∀ (pairs : List (String × StoredComment)) (st : ChannelData),
      (∀ p ∈ pairs, p.2.analysis.isSome) → (∀ p ∈ pairs, presentAt st vid p.1) →
      ∀ x ∈ pairs.map Prod.fst,
        analyzedAt (pairs.foldl (fun s p => setComment s vid p.1 p.2) st) vid x := by
  intro pairs
  induction pairs with
  | nil => intro st _ _ x hx; simp at hx
  | cons p rest ih =>
    intro st hall hpres x hx
    rw [List.foldl_cons]
    rcases List.mem_cons.mp hx with h0 | h1
    · subst h0
      exact wb_preserves_analyzed rest _
        (fun q hq => hall q (List.mem_cons_of_mem p hq))
        (setComment_analyzes (hall p (List.mem_cons_self p rest))
          (hpres p (List.mem_cons_self p rest)))
    · exact ih _ (fun q hq => hall q (List.mem_cons_of_mem p hq))
        (fun q hq => presentAt_setComment p.1 p.2 (hpres q (List.mem_cons_of_mem p hq)))
        x h1

theorem wb_keys {vid : String} :
    ∀ (pairs : List (String × StoredComment)) (st : ChannelData),
      (∀ p ∈ pairs, presentAt st vid p.1) →
      (commentsOf (pairs.foldl (fun s p => setComment s vid p.1 p.2) st) vid).map Prod.fst =
        (commentsOf st vid).map Prod.fst := by
  intro pairs
  induction pairs with
  | nil => intro st _; rfl
  | cons p rest ih =>
    intro st hpres
    rw [List.foldl_cons]
    rw [ih _ (fun q hq => presentAt_setComment p.1 p.2 (hpres q (List.mem_cons_of_mem p hq)))]
    exact keys_setComment p.2 (hpres p (List.mem_cons_self p rest))

theorem chunk_found_map_fst {st : ChannelData} {vid : String} :
    ∀ (chunk : List String), (∀ id ∈ chunk, presentAt st vid id) →
      (chunk.filterMap (fun cid =>
        (alookup cid (commentsOf st vid)).map (fun c => (cid, c)))).map Prod.fst = chunk := by
  intro chunk
  induction chunk with
  | nil => intro _; rfl
  | cons id rest ih =>
    intro hpres
    have hid : presentAt st vid id := hpres id (List.mem_cons_self id rest)
    obtain ⟨c, hc⟩ := Option.isSome_iff_exists.mp hid
    simp only [List.filterMap_cons, hc, Option.map_some', List.map_cons]
    rw [ih (fun q hq => hpres q (List.mem_cons_of_mem id hq))]

theorem chunkStep_count {stages : Stages} {now : DateTime} {st : ChannelData}
    {vid : String} {chunk : List String} (hpres : ∀ id ∈ chunk, presentAt st vid id) :
    (chunkStep stages now st vid chunk).2 = chunk.length := by
  simp only [chunkStep, run_batch_count]
  rw [List.length_map]
  have := congrArg List.length (chunk_found_map_fst chunk hpres)
  rw [List.length_map] at this
  exact this

theorem chunkStep_present {stages : Stages} {now : DateTime} {st : ChannelData}
    {vid : String} {chunk : List String} {x : String} (h : presentAt st vid x) :
    presentAt (chunkStep stages now st vid chunk).1 vid x :=
  wb_preserves_present _ _ h

theorem chunkStep_analyzed {stages : Stages} {now : DateTime} {st : ChannelData}
    {vid : String} {chunk : List String} {x : String} (h : analyzedAt st vid x) :
    analyzedAt (chunkStep stages now st vid chunk).1 vid x := by
  refine wb_preserves_analyzed _ _ ?_ h
  intro p hp
  have hsnd := List.of_mem_zip hp
  exact run_batch_all_analyzed _ _ _ p.2 hsnd.2

theorem wb_zip_pairs_fst (stages : Stages) (now : DateTime)
    (found : List (String × StoredComment)) :
    ((found.map Prod.fst).zip
      (run_batch_analysis_on_comments stages now (found.map Prod.snd)).1).map Prod.fst =
      found.map Prod.fst := by
  apply List.map_fst_zip
  rw [run_batch_length, List.length_map, List.length_map]

theorem chunkStep_analyzes {stages : Stages} {now : DateTime} {st : ChannelData}
    {vid : String} {chunk : List String} (hpres : ∀ id ∈ chunk, presentAt st vid id) :
    ∀ x ∈ chunk, analyzedAt (chunkStep stages now st vid chunk).1 vid x := by
  intro x hx
  have hfst : ((chunk.filterMap (fun cid =>
      (alookup cid (commentsOf st vid)).map (fun c => (cid, c)))).map Prod.fst) = chunk :=
    chunk_found_map_fst chunk hpres
  have hzipfst := wb_zip_pairs_fst stages now
    (chunk.filterMap (fun cid => (alookup cid (commentsOf st vid)).map (fun c => (cid, c))))
  refine wb_analyzes _ _ ?_ ?_ x ?_
  · intro p hp
    exact run_batch_all_analyzed _ _ _ p.2 (List.of_mem_zip hp).2
  · intro p hp
    have hp1 : p.1 ∈ chunk := by
      rw [← hfst, ← hzipfst]
      exact List.mem_map.mpr ⟨p, hp, rfl⟩
    exact hpres p.1 hp1
  · rw [hzipfst, hfst]
    exact hx

theorem chunkStep_keys {stages : Stages} {now : DateTime} {st : ChannelData}
    {vid : String} {chunk : List String} (hpres : ∀ id ∈ chunk, presentAt st vid id) :
    (commentsOf (chunkStep stages now st vid chunk).1 vid).map Prod.fst =
      (commentsOf st vid).map Prod.fst := by
  have hfst : ((chunk.filterMap (fun cid =>
      (alookup cid (commentsOf st vid)).map (fun c => (cid, c)))).map Prod.fst) = chunk :=
    chunk_found_map_fst chunk hpres
  have hzipfst := wb_zip_pairs_fst stages now
    (chunk.filterMap (fun cid => (alookup cid (commentsOf st vid)).map (fun c => (cid, c))))
  refine wb_keys _ _ ?_
  intro p hp
  have hp1 : p.1 ∈ chunk := by
    rw [← hfst, ← hzipfst]
    exact List.mem_map.mpr ⟨p, hp, rfl⟩
  exact hpres p.1 hp1

theorem chunkStep_nil (stages : Stages) (now : DateTime) (st : ChannelData)
    (vid : String) : chunkStep stages now st vid [] = (st, 0) := rfl

theorem videos_updAgg (now : DateTime) (st : ChannelData) :
    (update_and_log_aggregates now st).videos =
      st.videos.map (fun p => (p.1, applyVideoAgg now p.2)) := by
  simp only [update_and_log_aggregates]
  cases hcc : calculate_channel_aggregates now
    { st with videos := st.videos.map (fun p => (p.1, applyVideoAgg now p.2)) } <;> rfl

theorem commentsOf_updAgg (now : DateTime) (st : ChannelData) (vid : String) :
    commentsOf (update_and_log_aggregates now st) vid = commentsOf st vid := by
  simp only [commentsOf, videos_updAgg, alookup_map_value]
  cases alookup vid st.videos with
  | none => rfl
  | some v =>
    simp only [Option.map_some']
    show (applyVideoAgg now v).comments = v.comments
    unfold applyVideoAgg
    cases calculate_video_aggregates now v <;> rfl

theorem presentAt_updAgg {now : DateTime} {st : ChannelData} {vid x : String}
    (h : presentAt st vid x) : presentAt (update_and_log_aggregates now st) vid x := by
  unfold presentAt
  rw [commentsOf_updAgg]
  exact h

theorem analyzedAt_updAgg {now : DateTime} {st : ChannelData} {vid x : String}
    (h : analyzedAt st vid x) : analyzedAt (update_and_log_aggregates now st) vid x := by
  unfold analyzedAt
  rw [commentsOf_updAgg]
  exact h

theorem chunksOf_cons {α : Type} (xs : List α) (h : xs ≠ []) :
    chunksOf xs = xs.take CHECKPOINT_INTERVAL :: chunksOf (xs.drop CHECKPOINT_INTERVAL) := by
  have hlen : 0 < xs.length := List.length_pos.mpr h
  have hnc : numChunks xs.length = numChunks (xs.length - CHECKPOINT_INTERVAL) + 1 := by
    unfold numChunks CHECKPOINT_INTERVAL
    omega
  unfold chunksOf
  rw [hnc, List.range_succ_eq_map]
  simp only [List.map_cons, List.map_map, Nat.zero_mul, List.drop_zero, List.length_drop]
  congr 1
  apply List.map_congr_left
  intro i _
  simp only [Function.comp_apply]
  rw [List.drop_drop]
  congr 2
  simp only [CHECKPOINT_INTERVAL]
  omega

theorem flatten_chunksOf {α : Type} (xs : List α) : (chunksOf xs).flatten = xs := by
  by_cases hxs : xs = []
  · subst hxs
    simp [chunksOf, numChunks, CHECKPOINT_INTERVAL]
  · rw [chunksOf_cons xs hxs, List.flatten_cons, flatten_chunksOf (xs.drop CHECKPOINT_INTERVAL)]
    exact List.take_append_drop _ xs
termination_by xs.length
decreasing_by
  have : xs ≠ [] := hxs
  have hlen : 0 < xs.length := List.length_pos.mpr this
  simp only [List.length_drop, CHECKPOINT_INTERVAL]
  omega

theorem processFold_inv (stages : Stages) (now : DateTime) (vid : String) :
    ∀ (chs : List (List String)) (st : ChannelData) (n : Nat) (saves : List ChannelData),
      (∀ id ∈ chs.flatten, presentAt st vid id) →
      (chs.foldl (checkpointStep stages now vid) (st, n, saves)).2.1 = n + chs.flatten.length ∧
      (∀ id ∈ chs.flatten,
        analyzedAt (chs.foldl (checkpointStep stages now vid) (st, n, saves)).1 vid id) ∧
      (∀ id, presentAt st vid id →
        presentAt (chs.foldl (checkpointStep stages now vid) (st, n, saves)).1 vid id) ∧
      (∀ id, analyzedAt st vid id →
        analyzedAt (chs.foldl (checkpointStep stages now vid) (st, n, saves)).1 vid id) ∧
      (commentsOf (chs.foldl (checkpointStep stages now vid) (st, n, saves)).1 vid).map
        Prod.fst = (commentsOf st vid).map Prod.fst := by
  intro chs
  induction chs with
  | nil =>
    intro st n saves _
    exact ⟨by simp, by simp, fun _ h => h, fun _ h => h, rfl⟩
  | cons ch rest ih =>
    intro st n saves hpres
    have hch : ∀ id ∈ ch, presentAt st vid id := by
      intro id hid
      exact hpres id (by simp [List.flatten_cons, hid])
    have hrest : ∀ id ∈ rest.flatten, presentAt st vid id := by
      intro id hid
      exact hpres id (by simp [List.flatten_cons, hid])
    rw [List.foldl_cons]
    by_cases hch0 : ch = []
    · subst hch0
      have hstep : checkpointStep stages now vid (st, n, saves) [] = (st, n, saves) := rfl
      rw [hstep]
      obtain ⟨h1, h2, h3, h4, h5⟩ := ih st n saves hrest
      refine ⟨by simpa using h1, ?_, h3, h4, h5⟩
      intro id hid
      simp only [List.flatten_cons, List.nil_append] at hid
      exact h2 id hid
    · have hk : (chunkStep stages now st vid ch).2 = ch.length := chunkStep_count hch
      have hkpos : 0 < (chunkStep stages now st vid ch).2 := by
        rw [hk]
        exact List.length_pos.mpr hch0
      have hstep : checkpointStep stages now vid (st, n, saves) ch =
          (update_and_log_aggregates now (chunkStep stages now st vid ch).1,
            n + (chunkStep stages now st vid ch).2,
            saves ++ [update_and_log_aggregates now (chunkStep stages now st vid ch).1]) := by
        simp only [checkpointStep, hkpos, if_true]
      rw [hstep]
      have hrest2 : ∀ id ∈ rest.flatten,
          presentAt (update_and_log_aggregates now (chunkStep stages now st vid ch).1)
            vid id := by
        intro id hid
        exact presentAt_updAgg (chunkStep_present (hrest id hid))
      obtain ⟨h1, h2, h3, h4, h5⟩ := ih _ _ _ hrest2
      refine ⟨?_, ?_, ?_, ?_, ?_⟩
      · rw [h1, hk]
        simp only [List.flatten_cons, List.length_append]
        omega
      · intro id hid
        simp only [List.flatten_cons, List.mem_append] at hid
        rcases hid with hid | hid
        · exact h4 id (analyzedAt_updAgg (chunkStep_analyzes hch id hid))
        · exact h2 id hid
      · intro id hid
        exact h3 id (presentAt_updAgg (chunkStep_present hid))
      · intro id hid
        exact h4 id (analyzedAt_updAgg (chunkStep_analyzed hid))
      · rw [h5, commentsOf_updAgg]
        exact chunkStep_keys hch

/-- C3: at-most-once analysis.  An uninterrupted chunked run over candidate
ids (each resolving to a comment of video `vid`) returns a processed count
equal to the number of candidates handed in, leaves every one of those
comments with a non-null analysis (empty-text and all-stages-failed
candidates included, since the AnalysisResult is attached unconditionally),
and therefore none of them appears in the candidate selection
(`analysis is None`) of any subsequent run over the resulting store. -/
theorem at_most_once_analysis (stages : Stages) (now : DateTime) (st : ChannelData)
    (vid : String) (ids : List String)
    (hpres : ∀ id ∈ ids, presentAt st vid id)
    (hnd : ((commentsOf st vid).map Prod.fst).Nodup) :
    (process_comment_list_with_checkpoints stages now st vid ids).2.1 = ids.length ∧
    (∀ id ∈ ids,
      analyzedAt (process_comment_list_with_checkpoints stages now st vid ids).1 vid id) ∧
    (∀ id ∈ ids,
      id ∉ candidate_ids (process_comment_list_with_checkpoints stages now st vid ids).1
        vid) := by
  have hpres' : ∀ id ∈ (chunksOf ids).flatten, presentAt st vid id := by
    rw [flatten_chunksOf]
    exact hpres
  obtain ⟨h1, h2, h3, h4, h5⟩ := processFold_inv stages now vid (chunksOf ids) st 0 [] hpres'
  rw [flatten_chunksOf] at h1 h2
  refine ⟨by simpa using h1, h2, ?_⟩
  intro id hid hmem
  obtain ⟨c, hc, hcs⟩ := h2 id hid
  simp only [candidate_ids, List.mem_map] at hmem
  obtain ⟨p, hpf, hpid⟩ := hmem
  have hpmem : p ∈ commentsOf
      (process_comment_list_with_checkpoints stages now st vid ids).1 vid :=
    (List.mem_filter.mp hpf).1
  have hpnone : p.2.analysis.isNone := by
    simpa using (List.mem_filter.mp hpf).2
  have hndf : ((commentsOf (process_comment_list_with_checkpoints stages now st vid ids).1
      vid).map Prod.fst).Nodup := by
    show ((commentsOf ((chunksOf ids).foldl (checkpointStep stages now vid)
      (st, 0, [])).1 vid).map Prod.fst).Nodup
    rw [h5]
    exact hnd
  have hlp : alookup p.1 (commentsOf
      (process_comment_list_with_checkpoints stages now st vid ids).1 vid) = some p.2 :=
    alookup_of_mem_nodup hndf (show (p.1, p.2) ∈ _ from hpmem)
  rw [hpid] at hlp
  have : c = p.2 := Option.some_injective _ (hc.symm.trans hlp)
  rw [this] at hcs
  rw [Option.isNone_iff_eq_none.mp hpnone] at hcs
  simp at hcs

/-- The two-candidate store of the C3 witness: video "v" with unanalyzed
comments "a" and "b". -/
def processWitnessStore : ChannelData :=
  { channel_metadata := testChannelMeta
    videos :=
      [("v",
        { video_metadata := testVideoMeta "v"
          comments :=
            [("a", testComment "a" (some "hi") none),
             ("b", testComment "b" (some "yo") none)]
          last_comments_check_timestamp := none })]
    last_video_list_check_timestamp := none }

/-- Witness for C3 at a concrete two-candidate run. -/
theorem at_most_once_witness :
    (process_comment_list_with_checkpoints constStages 0 processWitnessStore "v"
      ["a", "b"]).2.1 = (["a", "b"] : List String).length :=
  (at_most_once_analysis constStages 0 processWitnessStore "v" ["a", "b"]
    (by decide) (by decide)).1

/-- The 25 candidate comment ids of the checkpoint-durability scenario. -/
def c4Ids : List String := (List.range 25).map toString

/-- The checkpoint-durability store: one video "v" with 25 unanalyzed
comments. -/
def c4Store : ChannelData :=
  { channel_metadata := testChannelMeta
    videos :=
      [("v",
        { video_metadata := testVideoMeta "v"
          comments := (List.range 25).map
            (fun i => (toString i, testComment (toString i) (some "t") none))
          last_comments_check_timestamp := none })]
    last_video_list_check_timestamp := none }

/-- Number of comments of video `vid` carrying a non-null analysis. -/
def countAnalyzed (st : ChannelData) (vid : String) : Nat :=
  ((commentsOf st vid).filter (fun p => p.2.analysis.isSome)).length

/-- Number of comments of video `vid`. -/
def countComments (st : ChannelData) (vid : String) : Nat :=
  (commentsOf st vid).length

set_option maxRecDepth 8000 in
/-- C4: checkpoint durability.  With CHECKPOINT_INTERVAL = 10 and 25
candidate comments, the run hands the store to the persistence sink exactly
3 times (once after every chunk), and the store passed at the 2nd
persistence call contains analysis for exactly 20 of its 25 comments. -/
theorem checkpoint_durability :
    CHECKPOINT_INTERVAL = 10 ∧
    c4Ids.length = 25 ∧
    ((process_comment_list_with_checkpoints constStages 0 c4Store "v" c4Ids).2.2).length
      = 3 ∧
    ((process_comment_list_with_checkpoints constStages 0 c4Store "v" c4Ids).2.2.get? 1).map
      (fun s => countAnalyzed s "v") = some 20 ∧
    ((process_comment_list_with_checkpoints constStages 0 c4Store "v" c4Ids).2.2.get? 1).map
      (fun s => countComments s "v") = some 25 := by
  refine ⟨rfl, rfl, ?_, ?_, ?_⟩ <;> decide

/-- The average score a per-video aggregate reports for label `L` in the
map selected by `get` (0 when the label or the map is absent — such videos
contribute nothing to the weighted sum, exactly as in the source loop). -/
def pLookup (get : AggregateAnalysis → Option (List (String × ℚ))) (L : String)
    (a : AggregateAnalysis) : ℚ :=
  match get a with
  | some m => (alookup L m).getD 0
  | none => 0

/-- The per-video aggregate carries label `L` in the map selected by `get`. -/
def pHas (get : AggregateAnalysis → Option (List (String × ℚ))) (L : String)
    (a : AggregateAnalysis) : Prop :=
  match get a with
  | some m => (alookup L m).isSome
  | none => False

/-- The spec's weighted sum for label `L`: each video's average score for
the label times that video's analyzed-comment count, summed over the
videos that carry a per-video aggregate. -/
def sumWeighted (get : AggregateAnalysis → Option (List (String × ℚ))) (L : String)
    (aggs : List AggregateAnalysis) : ℚ :=
  (aggs.map (fun a => pLookup get L a * (a.total_analyzed_comments : ℚ))).sum

theorem alookup_bumpMap_self (l : String) (x : ℚ) (m : List (String × ℚ)) :
    alookup l (m.map (fun p => if p.1 = l then (p.1, p.2 + x) else p)) =
      (alookup l m).map (fun v => v + x) := by
  induction m with
  | nil => rfl
  | cons p rest ih =>
    by_cases hpl : p.1 = l
    · simp [alookup, hpl]
    · simp [alookup, hpl, ih]

theorem alookup_bumpMap_ne {l' l : String} (h : l' ≠ l) (x : ℚ)
    (m : List (String × ℚ)) :
    alookup l' (m.map (fun p => if p.1 = l then (p.1, p.2 + x) else p)) =
      alookup l' m := by
  induction m with
  | nil => rfl
  | cons p rest ih =>
    by_cases hpl : p.1 = l
    · have hne : ¬(l = l') := fun he => h he.symm
      simp [alookup, hpl, hne, ih]
    · by_cases hpl' : p.1 = l'
      · have hne : ¬(l' = l) := by rw [← hpl']; exact hpl
        simp [alookup, hpl, hpl', hne]
      · simp [alookup, hpl, hpl', ih]

theorem alookup_bump_self (m : List (String × ℚ)) (l : String) (x : ℚ) :
    alookup l (bump m l x) = some ((alookup l m).getD 0 + x) := by
  unfold bump
  cases hm : alookup l m with
  | none =>
    rw [alookup_append_right _ hm]
    simp [alookup]
  | some v =>
    rw [alookup_bumpMap_self, hm]
    rfl

theorem alookup_bump_ne {l' l : String} (h : l' ≠ l) (m : List (String × ℚ)) (x : ℚ) :
    alookup l' (bump m l x) = alookup l' m := by
  unfold bump
  cases hm : alookup l m with
  | none =>
    cases hl' : alookup l' m with
    | none =>
      rw [alookup_append_right _ hl']
      have hne : ¬(l = l') := fun he => h he.symm
      simp [alookup, hne]
    | some w => simp [alookup_append_left _ hl', hl']
  | some v => rw [alookup_bumpMap_ne h]

theorem alookup_foldBump_not_mem (f : String × ℚ → ℚ) {L : String} :
    ∀ (m : List (String × ℚ)) (acc : List (String × ℚ)), alookup L m = none →
      alookup L (foldBump f acc m) = alookup L acc := by
  intro m
  induction m with
  | nil => intro acc _; rfl
  | cons p rest ih =>
    intro acc h
    have hpl : p.1 ≠ L := by
      intro he
      simp [alookup, he] at h
    have hrest : alookup L rest = none := by
      simpa [alookup, hpl] using h
    show alookup L (foldBump f (bump acc p.1 (f p)) rest) = alookup L acc
    rw [ih _ hrest, alookup_bump_ne (fun he => hpl he.symm)]

theorem alookup_foldBump_mem (f : String × ℚ → ℚ) {L : String} {s : ℚ} :
    ∀ (m : List (String × ℚ)), (m.map Prod.fst).Nodup → (L, s) ∈ m →
      ∀ acc, alookup L (foldBump f acc m) =
        some ((alookup L acc).getD 0 + f (L, s)) := by
  intro m
  induction m with
  | nil => intro _ hm; simp at hm
  | cons p rest ih =>
    intro hnd hm acc
    have hnd' : p.1 ∉ rest.map Prod.fst ∧ (rest.map Prod.fst).Nodup := by
      simpa using hnd
    show alookup L (foldBump f (bump acc p.1 (f p)) rest) =
      some ((alookup L acc).getD 0 + f (L, s))
    rcases List.mem_cons.mp hm with h0 | h1
    · obtain rfl : p = (L, s) := h0.symm
      have hrest : alookup L rest = none := by
        cases hres : alookup L rest with
        | none => rfl
        | some w =>
          exfalso
          exact hnd'.1 (List.mem_map.mpr ⟨(L, w), mem_of_alookup hres, rfl⟩)
      rw [alookup_foldBump_not_mem f rest _ hrest]
      exact alookup_bump_self acc L (f (L, s))
    · have hpl : p.1 ≠ L := by
        intro he
        have : L ∈ rest.map Prod.fst := List.mem_map.mpr ⟨(L, s), h1, rfl⟩
        rw [he] at hnd'
        exact hnd'.1 this
      rw [ih hnd'.2 h1 (bump acc p.1 (f p)),
        alookup_bump_ne (fun he => hpl he.symm)]

theorem channelSumStep_getD (get : AggregateAnalysis → Option (List (String × ℚ)))
    (L : String) (acc : List (String × ℚ)) (agg : AggregateAnalysis)
    (hnd : ∀ m, get agg = some m → (m.map Prod.fst).Nodup) :
    (alookup L (channelSumStep get acc agg)).getD 0 =
      (alookup L acc).getD 0 + pLookup get L agg * (agg.total_analyzed_comments : ℚ) := by
  unfold channelSumStep
  cases hg : get agg with
  | none => simp [pLookup, hg]
  | some m =>
    by_cases hme : m.isEmpty
    · have hm0 : m = [] := by simpa [List.isEmpty_iff] using hme
      simp [hme, pLookup, hg, hm0, alookup]
    · simp only [hme, Bool.false_eq_true, if_false]
      cases hLm : alookup L m with
      | none =>
        rw [alookup_foldBump_not_mem _ m acc hLm]
        simp [pLookup, hg, hLm]
      | some s =>
        rw [alookup_foldBump_mem _ m (hnd m hg) (mem_of_alookup hLm) acc]
        simp only [pLookup, hg, hLm, Option.getD_some]

theorem channelSumStep_isSome (get : AggregateAnalysis → Option (List (String × ℚ)))
    (L : String) (acc : List (String × ℚ)) (agg : AggregateAnalysis)
    (hnd : ∀ m, get agg = some m → (m.map Prod.fst).Nodup) :
    ((alookup L (channelSumStep get acc agg)).isSome ↔
      ((alookup L acc).isSome ∨ pHas get L agg)) := by
  unfold channelSumStep pHas
  cases hg : get agg with
  | none => simp
  | some m =>
    by_cases hme : m.isEmpty
    · have hm0 : m = [] := by simpa [List.isEmpty_iff] using hme
      simp [hme, hm0, alookup]
    · simp only [hme, Bool.false_eq_true, if_false]
      cases hLm : alookup L m with
      | none =>
        rw [alookup_foldBump_not_mem _ m acc hLm]
        simp [hLm]
      | some s =>
        rw [alookup_foldBump_mem _ m (hnd m hg) (mem_of_alookup hLm) acc]
        simp [hLm]

theorem channelFold_getD (get : AggregateAnalysis → Option (List (String × ℚ)))
    (L : String) :
    ∀ (contribs : List AggregateAnalysis) (acc : List (String × ℚ)),
      (∀ a ∈ contribs, ∀ m, get a = some m → (m.map Prod.fst).Nodup) →
      (alookup L (contribs.foldl (channelSumStep get) acc)).getD 0 =
        (alookup L acc).getD 0 + sumWeighted get L contribs := by
  intro contribs
  induction contribs with
  | nil => intro acc _; simp [sumWeighted]
  | cons a rest ih =>
    intro acc hnd
    rw [List.foldl_cons]
    rw [ih _ (fun b hb m hm => hnd b (List.mem_cons_of_mem a hb) m hm)]
    rw [channelSumStep_getD get L acc a (fun m hm => hnd a (List.mem_cons_self a rest) m hm)]
    have hsum : sumWeighted get L (a :: rest) =
        pLookup get L a * (a.total_analyzed_comments : ℚ) + sumWeighted get L rest := by
      unfold sumWeighted
      rw [List.map_cons, List.sum_cons]
    rw [hsum]
    ring

theorem channelFold_isSome (get : AggregateAnalysis → Option (List (String × ℚ)))
    (L : String) :
    ∀ (contribs : List AggregateAnalysis) (acc : List (String × ℚ)),
      (∀ a ∈ contribs, ∀ m, get a = some m → (m.map Prod.fst).Nodup) →
      ((alookup L (contribs.foldl (channelSumStep get) acc)).isSome ↔
        ((alookup L acc).isSome ∨ ∃ a ∈ contribs, pHas get L a)) := by
  intro contribs
  induction contribs with
  | nil => intro acc _; simp
  | cons a rest ih =>
    intro acc hnd
    rw [List.foldl_cons]
    rw [ih _ (fun b hb m hm => hnd b (List.mem_cons_of_mem a hb) m hm)]
    rw [channelSumStep_isSome get L acc a (fun m hm => hnd a (List.mem_cons_self a rest) m hm)]
    constructor
    · rintro ((h | h) | ⟨b, hb, hpb⟩)
      · exact Or.inl h
      · exact Or.inr ⟨a, List.mem_cons_self a rest, h⟩
      · exact Or.inr ⟨b, List.mem_cons_of_mem a hb, hpb⟩
    · rintro (h | ⟨b, hb, hpb⟩)
      · exact Or.inl (Or.inl h)
      · rcases List.mem_cons.mp hb with h0 | h1
        · exact Or.inl (Or.inr (h0 ▸ hpb))
        · exact Or.inr ⟨b, h1, hpb⟩

/-- C10: weighted channel aggregation.  For every channel with at least one
per-video aggregate carrying label `L` (in the source-sentiment map, whose
accumulation loop in the source is verbatim identical to those of the
emotion map and the irony distribution) and a positive channel-wide
analyzed total, calculate_channel_aggregates reports for `L` exactly the
sum over videos of (that video's average score for `L` times that video's
analyzed-comment count), divided by the channel-wide analyzed-comment
total, rounded to 4 decimals — videos lacking the label contribute zero. -/
theorem weighted_channel_aggregation (now : DateTime) (d : ChannelData) (L : String)
    (hnd : ∀ a ∈ channelAggContribs d, ∀ m, a.avg_persian_sentiment = some m →
      (m.map Prod.fst).Nodup)
    (hL : ∃ a ∈ channelAggContribs d, pHas (fun a => a.avg_persian_sentiment) L a)
    (htot : 0 < channelTotal d) :
    ∃ A m, calculate_channel_aggregates now d = some A ∧
      A.total_analyzed_comments = channelTotal d ∧
      A.avg_persian_sentiment = some m ∧
      alookup L m = some (round4
        (sumWeighted (fun a => a.avg_persian_sentiment) L (channelAggContribs d) /
          (channelTotal d : ℚ))) := by
  have hcne : (channelAggContribs d).isEmpty = false := by
    rcases hL with ⟨a, ha, _⟩
    cases hc : channelAggContribs d with
    | nil => rw [hc] at ha; simp at ha
    | cons x xs => rfl
  have htot' : ¬(channelTotal d = 0) := by omega
  have hiso : (alookup L (channelWeightedSums (fun a => a.avg_persian_sentiment)
      (channelAggContribs d))).isSome := by
    unfold channelWeightedSums
    exact (channelFold_isSome (fun a => a.avg_persian_sentiment) L
      (channelAggContribs d) [] hnd).mpr (Or.inr hL)
  obtain ⟨w, hw⟩ := Option.isSome_iff_exists.mp hiso
  have hwval : w = sumWeighted (fun a => a.avg_persian_sentiment) L
      (channelAggContribs d) := by
    have hv := channelFold_getD (fun a => a.avg_persian_sentiment) L
      (channelAggContribs d) [] hnd
    unfold channelWeightedSums at hw
    rw [hw] at hv
    simpa [alookup] using hv
  have hfa : alookup L ((channelWeightedSums (fun a => a.avg_persian_sentiment)
      (channelAggContribs d)).map
      (fun p => (p.1, round4 (p.2 / (channelTotal d : ℚ))))) =
      some (round4 (sumWeighted (fun a => a.avg_persian_sentiment) L
        (channelAggContribs d) / (channelTotal d : ℚ))) := by
    have hmv := alookup_map_value L (fun v => round4 (v / (channelTotal d : ℚ)))
      (channelWeightedSums (fun a => a.avg_persian_sentiment) (channelAggContribs d))
    rw [hw, hwval] at hmv
    simpa using hmv
  have hne_favg : ((channelWeightedSums (fun a => a.avg_persian_sentiment)
      (channelAggContribs d)).map
      (fun p => (p.1, round4 (p.2 / (channelTotal d : ℚ))))).isEmpty = false := by
    cases hfl : (channelWeightedSums (fun a => a.avg_persian_sentiment)
        (channelAggContribs d)).map
        (fun p => (p.1, round4 (p.2 / (channelTotal d : ℚ)))) with
    | nil => rw [hfl] at hfa; simp [alookup] at hfa
    | cons x xs => rfl
  have hA : calculate_channel_aggregates now d = some
      (AggregateAnalysis.mk (channelTotal d)
        (if ((channelWeightedSums (fun a => a.avg_persian_sentiment)
            (channelAggContribs d)).map
            (fun p => (p.1, round4 (p.2 / (channelTotal d : ℚ))))).isEmpty then none
         else some ((channelWeightedSums (fun a => a.avg_persian_sentiment)
            (channelAggContribs d)).map
            (fun p => (p.1, round4 (p.2 / (channelTotal d : ℚ))))))
        (if ((channelWeightedSums (fun a => a.avg_english_emotions)
            (channelAggContribs d)).map
            (fun p => (p.1, round4 (p.2 / (channelTotal d : ℚ))))).isEmpty then none
         else some ((channelWeightedSums (fun a => a.avg_english_emotions)
            (channelAggContribs d)).map
            (fun p => (p.1, round4 (p.2 / (channelTotal d : ℚ))))))
        (if ((channelWeightedSums (fun a => a.irony_distribution)
            (channelAggContribs d)).map
            (fun p => (p.1, round4 (p.2 / (channelTotal d : ℚ))))).isEmpty then none
         else some ((channelWeightedSums (fun a => a.irony_distribution)
            (channelAggContribs d)).map
            (fun p => (p.1, round4 (p.2 / (channelTotal d : ℚ))))))
        now) := by
    simp only [calculate_channel_aggregates]
    rw [if_neg (show ¬((channelAggContribs d).isEmpty = true) by
      rw [hcne]; exact Bool.false_ne_true)]
    rw [if_neg htot']
  simp only [hne_favg, Bool.false_eq_true, if_false] at hA
  exact ⟨_, _, hA, rfl, rfl, hfa⟩

/-- A video whose metadata carries the given pre-computed aggregate. -/
def c10Video (vidId : String) (agg : AggregateAnalysis) : StoredVideoData :=
  { video_metadata := { testVideoMeta vidId with aggregate_analysis := some agg }
    comments := []
    last_comments_check_timestamp := none }

/-- Per-video aggregate: 3 analyzed comments, label "A" average 1/2. -/
def c10Agg1 : AggregateAnalysis :=
  { total_analyzed_comments := 3
    avg_persian_sentiment := some [("A", 1 / 2)]
    avg_english_emotions := none
    irony_distribution := none
    last_calculated_at := 0 }

/-- Per-video aggregate: 7 analyzed comments, label "A" average 9/10. -/
def c10Agg2 : AggregateAnalysis :=
  { total_analyzed_comments := 7
    avg_persian_sentiment := some [("A", 9 / 10)]
    avg_english_emotions := none
    irony_distribution := none
    last_calculated_at := 0 }

/-- The two-video channel of the spec's weighted-aggregate example. -/
def c10Store : ChannelData :=
  { channel_metadata := testChannelMeta
    videos := [("v1", c10Video "v1" c10Agg1), ("v2", c10Video "v2" c10Agg2)]
    last_video_list_check_timestamp := none }

/-- Witness for C10 at the spec's example: analyzed counts 3 and 7 with
label-A averages 1/2 and 9/10 give channel average
(0.5*3 + 0.9*7)/10 = 0.78. -/
theorem weighted_channel_aggregation_witness :
    (∃ A m, calculate_channel_aggregates 0 c10Store = some A ∧
      A.total_analyzed_comments = channelTotal c10Store ∧
      A.avg_persian_sentiment = some m ∧
      alookup "A" m = some (round4
        (sumWeighted (fun a => a.avg_persian_sentiment) "A" (channelAggContribs c10Store) /
          (channelTotal c10Store : ℚ)))) ∧
    round4 (sumWeighted (fun a => a.avg_persian_sentiment) "A"
      (channelAggContribs c10Store) / (channelTotal c10Store : ℚ)) = 39 / 50 := by
  constructor
  · refine weighted_channel_aggregation 0 c10Store "A" ?_ ?_ ?_
    · intro a ha m hm
      have hc : channelAggContribs c10Store = [c10Agg1, c10Agg2] := rfl
      rw [hc] at ha
      rcases List.mem_cons.mp ha with h1 | h2
      · rw [h1] at hm
        have : some [("A", (1 : ℚ) / 2)] = some m := hm
        obtain rfl := Option.some_injective _ this
        simp
      · rcases List.mem_cons.mp h2 with h3 | h4
        · rw [h3] at hm
          have : some [("A", (9 : ℚ) / 10)] = some m := hm
          obtain rfl := Option.some_injective _ this
          simp
        · simp at h4
    · refine ⟨c10Agg1, ?_, ?_⟩
      · have hc : channelAggContribs c10Store = [c10Agg1, c10Agg2] := rfl
        rw [hc]
        exact List.mem_cons_self _ _
      · show (alookup "A" [("A", (1 : ℚ) / 2)]).isSome = true
        rfl
    · show 0 < channelTotal c10Store
      decide
  · have hsum : sumWeighted (fun a => a.avg_persian_sentiment) "A"
        (channelAggContribs c10Store) = (1 / 2 : ℚ) * 3 + (9 / 10 : ℚ) * 7 := by
      show pLookup (fun a => a.avg_persian_sentiment) "A" c10Agg1 * (3 : ℚ) +
        (pLookup (fun a => a.avg_persian_sentiment) "A" c10Agg2 * (7 : ℚ) + 0) =
        (1 / 2 : ℚ) * 3 + (9 / 10 : ℚ) * 7
      have h1 : pLookup (fun a => a.avg_persian_sentiment) "A" c10Agg1 = (1 / 2 : ℚ) := by
        simp [pLookup, c10Agg1, alookup]
      have h2 : pLookup (fun a => a.avg_persian_sentiment) "A" c10Agg2 = (9 / 10 : ℚ) := by
        simp [pLookup, c10Agg2, alookup]
      rw [h1, h2]
      ring
    have htotal : channelTotal c10Store = 10 := rfl
    rw [hsum, htotal]
    have harg : ((1 / 2 : ℚ) * 3 + (9 / 10 : ℚ) * 7) / ((10 : Nat) : ℚ) = 39 / 50 := by
      norm_num
    rw [harg]
    unfold round4 pyRound
    norm_num

end YCA
